import Mathlib

/-!
Verification of the email extraction pipeline (`email_parser.py`).

This file shallowly embeds the parts of the program that the specification's
claims are about:

* the response sanitization and JSON validation (`validate_json_output`,
  lines 183-200), together with a model of Python's `json.loads` and of the
  `jsonschema` validation of the fixed `SCHEMA` (lines 33-71);
* the naive field-accuracy comparator (`calculate_accuracy`, lines 238-258),
  including the Python runtime errors (`TypeError`/`KeyError`) its dynamic
  operations can raise;
* the qualitative-evaluation response handling (`evaluate_with_llm`,
  lines 297-372) as a function of the model's response text;
* the per-file evaluation loop of `compare_results` (lines 374-481) as a
  pure fold over per-file outcomes;
* the HTML cleaning pipeline (`clean_html`, lines 75-87) over a node-tree
  model of the underlying libraries;
* the structural-diff comparison strategy, which the specification describes
  but which is absent from the source (modelled from the spec).

Python strings are modelled as `List Char` / `String`; Python floats are
modelled as exact rationals (the claims only involve values on which float
and rational arithmetic agree); Python dicts are association lists with
distinct keys (the parser performs the later-duplicate-wins insertion that
Python's dict gives `json.loads`).
-/

/-- A parsed JSON value, the model of the Python objects produced by
`json.loads`.  Numbers keep their source lexeme (the claims never rely on
cross-lexeme numeric equality such as Python's `1 == 1.0`). -/
inductive Json where
  | null : Json
  | bool (b : Bool) : Json
  | num (lexeme : String) : Json
  | str (s : String) : Json
  | arr (items : List Json) : Json
  | obj (fields : List (String × Json)) : Json

mutual

/-- Structural equality of JSON values (the model of Python's `==` on the
objects `json.loads` returns). -/
def jsonBEq : Json → Json → Bool
  | .null, .null => true
  | .bool a, .bool b => a == b
  | .num a, .num b => a == b
  | .str a, .str b => a == b
  | .arr xs, .arr ys => jsonBEqList xs ys
  | .obj xs, .obj ys => jsonBEqFields xs ys
  | _, _ => false

/-- Pointwise equality of JSON arrays. -/
def jsonBEqList : List Json → List Json → Bool
  | [], [] => true
  | x :: xs, y :: ys => jsonBEq x y && jsonBEqList xs ys
  | _, _ => false

/-- Pointwise equality of JSON object field lists. -/
def jsonBEqFields : List (String × Json) → List (String × Json) → Bool
  | [], [] => true
  | (k, v) :: xs, (l, w) :: ys => k == l && jsonBEq v w && jsonBEqFields xs ys
  | _, _ => false

end

/-- JSON whitespace, the characters `json.loads` skips around tokens. -/
def isJws (c : Char) : Bool := c == ' ' || c == '\t' || c == '\n' || c == '\r'

/-- ASCII whitespace stripped by Python's `str.strip()` (the Unicode
whitespace characters are not modelled; no claim involves them). -/
def isPws (c : Char) : Bool := isJws c || c == Char.ofNat 11 || c == Char.ofNat 12

/-- The backtick character class, for `str.strip("`")`. -/
def isTick (c : Char) : Bool := c == '`'

/-- `str.lstrip` for a character class. -/
def pyLStrip (p : Char → Bool) (cs : List Char) : List Char := cs.dropWhile p

/-- `str.rstrip` for a character class. -/
def pyRStrip (p : Char → Bool) (cs : List Char) : List Char :=
  (cs.reverse.dropWhile p).reverse

/-- `str.strip` for a character class. -/
def pyStripBy (p : Char → Bool) (cs : List Char) : List Char :=
  pyRStrip p (pyLStrip p cs)

/-- Worker for `str.split(sep)`: scans left to right, emitting the
accumulated segment at each non-overlapping occurrence of `sep`.  The
fuel argument only makes the recursion structural; `pySplitL` supplies
`cs.length`, which is enough since each step consumes a character. -/
def pySplitGo (sep : List Char) : Nat → List Char → List Char → List (List Char)
  | _, [], acc => [acc.reverse]
  | 0, cs, acc => [acc.reverse ++ cs]
  | fuel + 1, c :: rest, acc =>
    if sep.isPrefixOf (c :: rest) then
      acc.reverse :: pySplitGo sep fuel (rest.drop (sep.length - 1)) []
    else
      pySplitGo sep fuel rest (c :: acc)

/-- Python's `str.split(sep)` for a non-empty separator. -/
def pySplitL (sep cs : List Char) : List (List Char) := pySplitGo sep cs.length cs []

/-- Element `[1]` of a Python list of strings (the call sites guard with
`startswith`, which guarantees the element exists). -/
def idx1 (l : List (List Char)) : List Char := l.getD 1 []

/-- Element `[0]` of a Python list of strings (always exists for `split`). -/
def idx0 (l : List (List Char)) : List Char := l.getD 0 []

/-! ### A model of `json.loads`

A strict recursive-descent parser for the RFC 8259 grammar as Python's
`json.loads` accepts it: no trailing commas, `-`/digit-led numbers without
leading zeros, strings with the standard escapes and `\uXXXX` (surrogate
pairs combined; lone surrogates rejected, a corner Python tolerates but no
claim touches), and nothing but whitespace around the document. -/

/-- Skip JSON whitespace. -/
def skipWs (cs : List Char) : List Char := cs.dropWhile isJws

/-- Take a maximal run of ASCII digits. -/
def takeDigitsL : List Char → List Char × List Char
  | c :: rest =>
    if c.isDigit then
      let p := takeDigitsL rest
      (c :: p.1, p.2)
    else ([], c :: rest)
  | [] => ([], [])

/-- Optional fraction part `.digits` of a JSON number. -/
def parseFracPart : List Char → Option (List Char × List Char)
  | '.' :: r =>
    match takeDigitsL r with
    | ([], _) => none
    | (ds, r2) => some ('.' :: ds, r2)
  | cs => some ([], cs)

/-- Optional exponent part `e[+-]digits` of a JSON number. -/
def parseExpPart : List Char → Option (List Char × List Char)
  | c :: r =>
    if c = 'e' ∨ c = 'E' then
      let sp : List Char × List Char :=
        match r with
        | '+' :: r2 => (['+'], r2)
        | '-' :: r2 => (['-'], r2)
        | _ => ([], r)
      match takeDigitsL sp.2 with
      | ([], _) => none
      | (ds, r2) => some (c :: (sp.1 ++ ds), r2)
    else some ([], c :: r)
  | [] => some ([], [])

/-- A JSON number token, returned as its lexeme. -/
def parseNumber (cs : List Char) : Option (String × List Char) :=
  let sp : List Char × List Char :=
    match cs with
    | '-' :: r => (['-'], r)
    | _ => ([], cs)
  match sp.2 with
  | [] => none
  | c :: rest =>
    if c.isDigit then
      let ip : List Char × List Char :=
        if c = '0' then ([c], rest)
        else
          let q := takeDigitsL rest
          (c :: q.1, q.2)
      match parseFracPart ip.2 with
      | none => none
      | some (fr, cs3) =>
        match parseExpPart cs3 with
        | none => none
        | some (ex, cs4) => some (String.mk (sp.1 ++ ip.1 ++ fr ++ ex), cs4)
    else none

/-- Hex digit value. -/
def hexVal (c : Char) : Option Nat :=
  if '0' ≤ c ∧ c ≤ '9' then some (c.toNat - '0'.toNat)
  else if 'a' ≤ c ∧ c ≤ 'f' then some (c.toNat - 'a'.toNat + 10)
  else if 'A' ≤ c ∧ c ≤ 'F' then some (c.toNat - 'A'.toNat + 10)
  else none

/-- Four hex digits. -/
def hex4 (a b c d : Char) : Option Nat :=
  match hexVal a, hexVal b, hexVal c, hexVal d with
  | some va, some vb, some vc, some vd => some (((va * 16 + vb) * 16 + vc) * 16 + vd)
  | _, _, _, _ => none

/-- One-character escapes of JSON strings. -/
def unescape (c : Char) : Option Char :=
  if c = '"' ∨ c = '\\' ∨ c = '/' then some c
  else if c = 'n' then some '\n'
  else if c = 'r' then some '\r'
  else if c = 't' then some '\t'
  else if c = 'b' then some (Char.ofNat 8)
  else if c = 'f' then some (Char.ofNat 12)
  else none

/-- Four hex digits at the head of the input, with the rest. -/
def parseHex4At : List Char → Option (Nat × List Char)
  | a :: b :: c :: d :: rest =>
    match hex4 a b c d with
    | some n => some (n, rest)
    | none => none
  | _ => none

/-- Body of a JSON string after the opening quote, up to and including the
closing quote.  Raw control characters are rejected, as in Python's strict
mode.  The fuel only makes the recursion structural; `parseStrBody`
supplies one more than the input length, and every step consumes at least
one character. -/
def parseStrBodyF : Nat → List Char → List Char → Option (String × List Char)
  | 0, _, _ => none
  | fuel + 1, acc, cs =>
    match cs with
    | [] => none
    | '"' :: rest => some (String.mk acc.reverse, rest)
    | '\\' :: rest =>
      match rest with
      | [] => none
      | 'u' :: rest2 =>
        match parseHex4At rest2 with
        | none => none
        | some (n, rest3) =>
          if n < 0xD800 ∨ 0xE000 ≤ n then parseStrBodyF fuel (Char.ofNat n :: acc) rest3
          else if n < 0xDC00 then
            match rest3 with
            | '\\' :: 'u' :: rest4 =>
              match parseHex4At rest4 with
              | none => none
              | some (m, rest5) =>
                if 0xDC00 ≤ m ∧ m < 0xE000 then
                  parseStrBodyF fuel
                    (Char.ofNat (0x10000 + (n - 0xD800) * 0x400 + (m - 0xDC00)) :: acc) rest5
                else none
            | _ => none
          else none
      | e :: rest2 =>
        match unescape e with
        | some ch => parseStrBodyF fuel (ch :: acc) rest2
        | none => none
    | c :: rest => if c.toNat < 0x20 then none else parseStrBodyF fuel (c :: acc) rest

/-- Body of a JSON string after the opening quote. -/
def parseStrBody (acc cs : List Char) : Option (String × List Char) :=
  parseStrBodyF (cs.length + 1) acc cs

/-- Python-dict insertion: a later duplicate key overwrites the earlier
value in place, otherwise the pair is appended. -/
def insertKey (flds : List (String × Json)) (k : String) (v : Json) : List (String × Json) :=
  match flds with
  | [] => [(k, v)]
  | (k', v') :: rest => if k' = k then (k', v) :: rest else (k', v') :: insertKey rest k v

mutual

/-- One JSON value, starting at a non-whitespace character; trailing
characters are left unconsumed.  `fuel` only bounds recursion depth;
`jsonLoadsL` supplies enough of it. -/
def parseValue : Nat → List Char → Option (Json × List Char)
  | 0, _ => none
  | fuel + 1, cs =>
    match cs with
    | '{' :: rest =>
      match skipWs rest with
      | '}' :: r => some (.obj [], r)
      | cs1 =>
        match parseMembers fuel cs1 [] with
        | some (ms, r) => some (.obj ms, r)
        | none => none
    | '[' :: rest =>
      match skipWs rest with
      | ']' :: r => some (.arr [], r)
      | cs1 =>
        match parseItems fuel cs1 [] with
        | some (vs, r) => some (.arr vs, r)
        | none => none
    | '"' :: rest =>
      match parseStrBody [] rest with
      | some (s, r) => some (.str s, r)
      | none => none
    | 't' :: 'r' :: 'u' :: 'e' :: r => some (.bool true, r)
    | 'f' :: 'a' :: 'l' :: 's' :: 'e' :: r => some (.bool false, r)
    | 'n' :: 'u' :: 'l' :: 'l' :: r => some (.null, r)
    | c :: rest =>
      if c = '-' ∨ c.isDigit then
        match parseNumber (c :: rest) with
        | some (lex, r) => some (.num lex, r)
        | none => none
      else none
    | [] => none

/-- One or more `"key": value` members of an object (the empty object is
handled by `parseValue`), ending at the closing brace. -/
def parseMembers : Nat → List Char → List (String × Json) → Option (List (String × Json) × List Char)
  | 0, _, _ => none
  | fuel + 1, cs, acc =>
    match cs with
    | '"' :: rest =>
      match parseStrBody [] rest with
      | none => none
      | some (k, r1) =>
        match skipWs r1 with
        | ':' :: r2 =>
          match parseValue fuel (skipWs r2) with
          | none => none
          | some (v, r3) =>
            match skipWs r3 with
            | ',' :: r4 => parseMembers fuel (skipWs r4) (insertKey acc k v)
            | '}' :: r4 => some (insertKey acc k v, r4)
            | _ => none
        | _ => none
    | _ => none

/-- One or more elements of an array (the empty array is handled by
`parseValue`), ending at the closing bracket. -/
def parseItems : Nat → List Char → List Json → Option (List Json × List Char)
  | 0, _, _ => none
  | fuel + 1, cs, acc =>
    match parseValue fuel cs with
    | none => none
    | some (v, r) =>
      match skipWs r with
      | ',' :: r2 => parseItems fuel (skipWs r2) (acc ++ [v])
      | ']' :: r2 => some (acc ++ [v], r2)
      | _ => none

end

/-- Trim JSON whitespace from both ends. -/
def trimJ (cs : List Char) : List Char :=
  ((cs.dropWhile isJws).reverse.dropWhile isJws).reverse

/-- Model of Python's `json.loads` on a character list: the document is the
input with surrounding whitespace removed, and must be consumed entirely. -/
def jsonLoadsL (cs : List Char) : Option Json :=
  let m := trimJ cs
  match parseValue (m.length + 1) m with
  | some (v, []) => some v
  | _ => none

/-- Model of Python's `json.loads` on a string. -/
def jsonLoads (s : String) : Option Json := jsonLoadsL s.toList

/-! ### The fixed extraction schema (`SCHEMA`, lines 33-71)

The source's `SCHEMA` dict uses three `jsonschema` keywords: `"type"`,
`"properties"` and `"items"`, with no `"required"` list.  The schema
document is embedded as a small inductive mirroring exactly those
keywords, and the validator implements their draft semantics: a type
keyword constrains the instance's type, `properties` constrains the type
of each listed field only when the instance is an object containing it,
and `items` constrains every element only when the instance is an array. -/

/-- A schema node: an optional `"type"` keyword, the `"properties"` map and
an optional `"items"` subschema. -/
inductive Schema where
  | mk (ty : Option String) (props : List (String × Schema)) (items : Option Schema)

/-- The `"type"` keyword check for the three type names `SCHEMA` uses. -/
def typeMatches (ty : String) (v : Json) : Bool :=
  if ty = "object" then
    match v with
    | .obj _ => true
    | _ => false
  else if ty = "string" then
    match v with
    | .str _ => true
    | _ => false
  else if ty = "array" then
    match v with
    | .arr _ => true
    | _ => false
  else true

/-- One layer of `jsonschema.validate` for the keyword subset `SCHEMA`
uses: the `"type"` keyword, the listed properties when the instance is an
object carrying them, and the `"items"` subschema when the instance is an
array; `rec` validates the subschemas. -/
def validateSchemaStep (rec : Schema → Json → Bool) : Schema → Json → Bool
  | .mk ty props items, v =>
    (match ty with
      | some t => typeMatches t v
      | none => true)
    && (match v with
      | .obj flds =>
        props.all fun ks =>
          match List.lookup ks.1 flds with
          | some w => rec ks.2 w
          | none => true
      | _ => true)
    && (match items, v with
      | some s, .arr l => l.all fun w => rec s w
      | _, _ => true)

/-- `jsonschema.validate` for the keyword subset `SCHEMA` uses.  The fuel
argument only makes the recursion structural (it decreases at each descent
into a subschema, and never runs out as long as it exceeds the schema's
nesting depth; `SCHEMA` has depth 4 and is always validated with fuel 8). -/
def validateSchema : Nat → Schema → Json → Bool
  | 0, _, _ => true
  | fuel + 1, s, v => validateSchemaStep (validateSchema fuel) s v

/-- A `{"type": "string"}` property schema. -/
def strSchema : Schema := .mk (some "string") [] none

/-- The per-line-item property schemas (lines 54-67). -/
def lineItemProps : List (String × Schema) :=
  [("product_id", strSchema), ("product_name", strSchema),
   ("product_description", strSchema), ("quantity", strSchema),
   ("product_cost", strSchema), ("product_discount", strSchema),
   ("product_price", strSchema), ("subtotal_cost", strSchema),
   ("tax_amount", strSchema), ("misc_cost", strSchema),
   ("discount_amount", strSchema), ("total_price", strSchema)]

/-- The schema of one line item (lines 52-68). -/
def lineItemSchema : Schema := .mk (some "object") lineItemProps none

/-- The top-level property schemas (lines 35-69). -/
def topProps : List (String × Schema) :=
  [("order_id", strSchema), ("created_date", strSchema),
   ("order_source_name", strSchema), ("order_source_name_merchant", strSchema),
   ("billing_address", strSchema), ("tracking_number", strSchema),
   ("carrier_reference_raw", strSchema), ("to_address", strSchema),
   ("expected_delivery_from", strSchema), ("expected_delivery_to", strSchema),
   ("shipment_value", strSchema), ("order_total_tax", strSchema),
   ("total_shipping_cost", strSchema), ("order_total_price", strSchema),
   ("line_items", .mk (some "array") [] (some lineItemSchema))]

/-- The fixed extraction schema (lines 33-71). -/
def SCHEMA : Schema := .mk (some "object") topProps none

/-! ### Response sanitization and validation (`validate_json_output`, lines 183-200) -/

/-- The fenced-with-language-tag opener `` ```json ``. -/
def lJson : List Char := "```json".toList

/-- The bare fence token `` ``` ``. -/
def lTick : List Char := "```".toList

/-- The fence-stripping steps of `validate_json_output` (lines 186-190):
`split("```json")[1]` when the text starts with the tagged opener, then
`split("```")[1]` when the result still starts with a bare fence, then
`.strip().strip("`")`. -/
def sanitize (cs : List Char) : List Char :=
  let cs1 := if lJson.isPrefixOf cs then idx1 (pySplitL lJson cs) else cs
  let cs2 := if lTick.isPrefixOf cs1 then idx1 (pySplitL lTick cs1) else cs1
  pyStripBy isTick (pyStripBy isPws cs2)

/-- The two failure modes of `validate_json_output`: `json.JSONDecodeError`
(the spec's `MalformedExtractionError`) and `jsonschema.ValidationError`
(the spec's `SchemaViolationError`). -/
inductive ExtractErr where
  | malformedExtraction : ExtractErr
  | schemaViolation : ExtractErr
deriving DecidableEq

deriving instance DecidableEq for Except

/-- The schema check as `validate_json_output` runs it. -/
def schemaOK (v : Json) : Bool := validateSchema 8 SCHEMA v

/-- `validate_json_output` (lines 183-200): sanitize, parse as JSON,
validate against `SCHEMA`, and return the parsed object. -/
def validate_json_output (s : String) : Except ExtractErr Json :=
  match jsonLoadsL (sanitize s.toList) with
  | none => .error .malformedExtraction
  | some d => if schemaOK d then .ok d else .error .schemaViolation


/-! ### The naive accuracy comparator (`calculate_accuracy`, lines 238-258)

`compare_values` is dynamically typed Python: the expected structure drives
the recursion, and the operations applied to the actual structure
(`key in act`, `act[key]`, `len(act)`, `act[i]`) can raise `TypeError` or
`KeyError`/`IndexError` depending on the actual value's runtime type.  The
embedding returns `Except PyErr` to model those exceptions, and threads the
`(total_fields, correct_fields)` pair that the Python closure mutates. -/

/-- The Python runtime errors the embedded operations can raise
(`ValueError` comes from a numeric format spec applied to a string). -/
inductive PyErr where
  | typeError : PyErr
  | keyError : PyErr
  | indexError : PyErr
  | valueError : PyErr
deriving DecidableEq

/-- `isinstance(v, (dict, list))`. -/
def isContainer : Json → Bool
  | .arr _ => true
  | .obj _ => true
  | _ => false

/-- Python's `key in act`: key membership for a dict, `==`-membership for a
list, substring test for a string, `TypeError` otherwise. -/
def pyContains (act : Json) (key : String) : Except PyErr Bool :=
  match act with
  | .obj flds => .ok (flds.any fun kv => kv.1 == key)
  | .arr items => .ok (items.any fun x => jsonBEq x (.str key))
  | .str s => .ok (decide (key.toList <:+: s.toList))
  | _ => .error .typeError

/-- Python's `act[key]` for a string key: dict lookup (`KeyError` when
absent), `TypeError` for lists, strings and scalars. -/
def pySubscript (act : Json) (key : String) : Except PyErr Json :=
  match act with
  | .obj flds =>
    match List.lookup key flds with
    | some v => .ok v
    | none => .error .keyError
  | _ => .error .typeError

/-- Python's `len(act)`: `TypeError` for numbers, booleans and `None`. -/
def pyLen (act : Json) : Except PyErr Nat :=
  match act with
  | .obj flds => .ok flds.length
  | .arr items => .ok items.length
  | .str s => .ok s.length
  | _ => .error .typeError

/-- Python's `act[i]` for an integer index: `KeyError` for a dict (whose
keys are strings), element access for lists and strings, `TypeError`
otherwise. -/
def pyIndexNat (act : Json) (i : Nat) : Except PyErr Json :=
  match act with
  | .obj _ => .error .keyError
  | .arr items =>
    match items[i]? with
    | some v => .ok v
    | none => .error .indexError
  | .str s =>
    match s.toList[i]? with
    | some c => .ok (.str (String.mk [c]))
    | none => .error .indexError
  | _ => .error .typeError

mutual

/-- `compare_values` (lines 243-255) on the state `(total_fields,
correct_fields)`. -/
def compareValues (exp act : Json) (st : Nat × Nat) : Except PyErr (Nat × Nat) :=
  match exp with
  | .obj flds => compareFields flds act st
  | .arr items => compareItems items act 0 st
  | _ => .ok st

/-- The `for key in exp` loop of `compare_values` for a dict: bump the
total, test `key in act`, compare `exp[key] == act[key]`, and recurse when
the expected value is a dict or list. -/
def compareFields (flds : List (String × Json)) (act : Json) (st : Nat × Nat) :
    Except PyErr (Nat × Nat) :=
  match flds with
  | [] => .ok st
  | (key, ev) :: rest =>
    let t := st.1 + 1
    match pyContains act key with
    | .error e => .error e
    | .ok b =>
      if b then
        match pySubscript act key with
        | .error e => .error e
        | .ok av =>
          let c := if jsonBEq ev av then st.2 + 1 else st.2
          if isContainer ev then
            match compareValues ev av (t, c) with
            | .error e => .error e
            | .ok st2 => compareFields rest act st2
          else compareFields rest act (t, c)
      else compareFields rest act (t, st.2)

/-- The `for i, item in enumerate(exp)` loop of `compare_values` for a
list: positions beyond `len(act)` are skipped. -/
def compareItems (items : List Json) (act : Json) (i : Nat) (st : Nat × Nat) :
    Except PyErr (Nat × Nat) :=
  match items with
  | [] => .ok st
  | item :: rest =>
    match pyLen act with
    | .error e => .error e
    | .ok n =>
      if i < n then
        match pyIndexNat act i with
        | .error e => .error e
        | .ok av =>
          match compareValues item av st with
          | .error e => .error e
          | .ok st2 => compareItems rest act (i + 1) st2
      else compareItems rest act (i + 1) st

end

/-- `calculate_accuracy` (lines 238-258): walk, then return
`correct / total * 100`, or 0 when the total is 0.  The Python float is
modelled as an exact rational; every claim only involves scores on which
the two agree. -/
def calculate_accuracy (expected actual : Json) : Except PyErr ℚ :=
  match compareValues expected actual (0, 0) with
  | .error e => .error e
  | .ok (t, c) => .ok (if 0 < t then (c : ℚ) / (t : ℚ) * 100 else 0)

/-! ### Claim-side readings of the accuracy walk

`specTotal`/`specCorrect` transcribe the claim's words for C2 ("every key
of every mapping reachable in expected", "those keys also present in
actual with an identical value"): the traversal of the expected structure
is unconditional, regardless of what the actual side holds.
`gCounts` transcribes the code's gated walk as a pure function: recursion
into a nested value happens only when the key is also present in actual
(and, for lists, only at indices below `len(actual)`). -/

/-- The actual-side value at a key, following the claim's reading. -/
def optLookup (act : Option Json) (k : String) : Option Json :=
  match act with
  | some (.obj flds) => List.lookup k flds
  | _ => none

/-- The actual-side value at an index, following the claim's reading. -/
def optIndex (act : Option Json) (i : Nat) : Option Json :=
  match act with
  | some (.arr items) => items[i]?
  | _ => none

mutual

/-- Claim reading of `total_fields`: every key of every mapping inside
the expected structure, unconditionally. -/
def specTotal : Json → Nat
  | .obj flds => specTotalFields flds
  | .arr items => specTotalList items
  | _ => 0

def specTotalFields : List (String × Json) → Nat
  | [] => 0
  | (_, v) :: rest => 1 + specTotal v + specTotalFields rest

def specTotalList : List Json → Nat
  | [] => 0
  | v :: rest => specTotal v + specTotalList rest

end

mutual

/-- Claim reading of `correct_fields`: keys (of every mapping inside the
expected structure) that are present at the corresponding position of the
actual structure with an identical value. -/
def specCorrect : Json → Option Json → Nat
  | .obj flds, act => specCorrectFields flds act
  | .arr items, act => specCorrectList items act 0
  | _, _ => 0

def specCorrectFields : List (String × Json) → Option Json → Nat
  | [], _ => 0
  | (k, v) :: rest, act =>
    (if (optLookup act k).elim false (fun w => jsonBEq v w) then 1 else 0)
      + specCorrect v (optLookup act k) + specCorrectFields rest act

def specCorrectList : List Json → Option Json → Nat → Nat
  | [], _, _ => 0
  | v :: rest, act, i => specCorrect v (optIndex act i) + specCorrectList rest act (i + 1)

end

/-- The score C2 predicts from its own characterization of the counters. -/
def specAccuracy (expected actual : Json) : ℚ :=
  if 0 < specTotal expected then
    (specCorrect expected (some actual) : ℚ) / (specTotal expected : ℚ) * 100
  else 0

/-- The value of an `Except`, with a default for the error case (only used
where the surrounding theorem's hypotheses rule the error out). -/
def exceptD {α : Type} (x : Except PyErr α) (d : α) : α :=
  match x with
  | .ok a => a
  | .error _ => d

/-- `key in act` as a total Boolean (false when it would raise). -/
def containsB (act : Json) (k : String) : Bool := exceptD (pyContains act k) false

/-- `act[key]` as a total function (null when it would raise). -/
def subD (act : Json) (k : String) : Json := exceptD (pySubscript act k) .null

/-- `len(act)` as a total function (0 when it would raise). -/
def lenD (act : Json) : Nat := exceptD (pyLen act) 0

/-- `act[i]` as a total function (null when it would raise). -/
def idxD (act : Json) (i : Nat) : Json := exceptD (pyIndexNat act i) .null

mutual

/-- The code's gated counters `(total_fields, correct_fields)` as a pure
function of the two structures. -/
def gCounts : Json → Json → Nat × Nat
  | .obj flds, act => gCountsFields flds act
  | .arr items, act => gCountsItems items act 0
  | _, _ => (0, 0)

def gCountsFields : List (String × Json) → Json → Nat × Nat
  | [], _ => (0, 0)
  | (k, ev) :: rest, act =>
    let b := containsB act k
    let hit : Nat := if b && jsonBEq ev (subD act k) then 1 else 0
    let deep := if b && isContainer ev then gCounts ev (subD act k) else (0, 0)
    let tail := gCountsFields rest act
    (1 + deep.1 + tail.1, hit + deep.2 + tail.2)

def gCountsItems : List Json → Json → Nat → Nat × Nat
  | [], _, _ => (0, 0)
  | item :: rest, act, i =>
    let deep := if i < lenD act then gCounts item (idxD act i) else (0, 0)
    let tail := gCountsItems rest act (i + 1)
    (deep.1 + tail.1, deep.2 + tail.2)

end

mutual

/-- Well-formedness of a value as `json.loads` produces it: every object's
keys are distinct (Python dicts cannot hold a key twice). -/
def wfKeys : Json → Bool
  | .obj flds => decide ((flds.map Prod.fst).Nodup) && wfKeysFields flds
  | .arr items => wfKeysList items
  | _ => true

def wfKeysFields : List (String × Json) → Bool
  | [] => true
  | (_, v) :: rest => wfKeys v && wfKeysFields rest

def wfKeysList : List Json → Bool
  | [] => true
  | v :: rest => wfKeys v && wfKeysList rest

end

mutual

/-- C10's sufficient condition: at every position the walk reaches, the
actual value supports the membership/length/indexing operation the code
applies to it there. -/
def supportsOps : Json → Json → Bool
  | .obj flds, act => supportsFields flds act
  | .arr items, act => supportsItems items act 0
  | _, _ => true

def supportsFields : List (String × Json) → Json → Bool
  | [], _ => true
  | (k, ev) :: rest, act =>
    (pyContains act k).isOk
      && (!(containsB act k) || (pySubscript act k).isOk)
      && (!(containsB act k && isContainer ev) || supportsOps ev (subD act k))
      && supportsFields rest act

def supportsItems : List Json → Json → Nat → Bool
  | [], _, _ => true
  | item :: rest, act, i =>
    (pyLen act).isOk
      && (!(decide (i < lenD act)) || ((pyIndexNat act i).isOk && supportsOps item (idxD act i)))
      && supportsItems rest act (i + 1)

end

/-! ### Qualitative-evaluation response handling (`evaluate_with_llm`, lines 297-372)

The external model call is not modelled; the embedding is a function of
the response text, covering everything the code does with it (lines
322-372): markdown-fence removal, parsing, the required-key and numeric
score checks, and the catch-all that substitutes the standardized
zero-score error result.  The Python error message strings carried into
that result are abbreviated. -/

/-- The five required top-level keys (lines 338-344). -/
def requiredFields : List String :=
  ["accuracy_score", "field_analysis", "quality_issues",
   "edge_case_handling", "improvement_suggestions"]

/-- `isinstance(v, (int, float))` on a parsed JSON value.  Python's `bool`
is a subclass of `int`, so booleans count as numeric. -/
def isPyNumeric : Json → Bool
  | .num _ => true
  | .bool _ => true
  | _ => false

/-- The fence removal of lines 326-331: between the first ```json and the
following ``` when a tagged fence occurs anywhere, else after the first
``` when a bare fence occurs anywhere, then `strip()`. -/
def evalSanitize (cs : List Char) : List Char :=
  let cs1 :=
    if decide (lJson <:+: cs) then idx0 (pySplitL lTick (idx1 (pySplitL lJson cs)))
    else if decide (lTick <:+: cs) then idx1 (pySplitL lTick cs)
    else cs
  pyStripBy isPws cs1

/-- The standardized zero-score error result (lines 362-372). -/
def evalErrorResult (msg : String) : Json :=
  .obj [("accuracy_score", .num "0"),
        ("field_analysis", .obj [("correct_fields", .arr []),
          ("incorrect_fields", .arr [.str ("Evaluation error: " ++ msg)]),
          ("missing_fields", .arr [])]),
        ("quality_issues", .arr [.str "Evaluation failed"]),
        ("edge_case_handling", .arr [.str "Could not evaluate edge cases"]),
        ("improvement_suggestions", .arr [.str "Retry evaluation"])]

/-- `all(field in evaluation for field in required_fields)`, short-circuit
and raising like the generator expression. -/
def allContainsFields (e : Json) : List String → Except PyErr Bool
  | [] => .ok true
  | k :: ks =>
    match pyContains e k with
    | .error err => .error err
    | .ok false => .ok false
    | .ok true => allContainsFields e ks

/-- The body of `evaluate_with_llm`'s try block as a fallible computation:
every raise site is an error (the carried message abbreviates `str(e)`). -/
def evalTry (resp : String) : Except String Json :=
  match jsonLoadsL (evalSanitize resp.toList) with
  | none => .error "Failed to parse LLM response"
  | some ev =>
    match allContainsFields ev requiredFields with
    | .error _ => .error "argument is not iterable"
    | .ok false => .error "Missing required fields in LLM response"
    | .ok true =>
      match pySubscript ev "accuracy_score" with
      | .error _ => .error "evaluation is not subscriptable"
      | .ok score =>
        if isPyNumeric score then .ok ev
        else .error "Invalid accuracy score format"

/-- `evaluate_with_llm` (lines 297-372) as a function of the response
text: the validated evaluation, or the standardized zero-score error
result on any failure. -/
def evaluate_with_llm (resp : String) : Json :=
  match evalTry resp with
  | .ok ev => ev
  | .error msg => evalErrorResult msg

/-- C6's validity condition on a parsed response: an object carrying all
five required keys whose accuracy score is numeric. -/
def validResponse (e : Json) : Bool :=
  match e with
  | .obj flds =>
    requiredFields.all (fun k => (List.lookup k flds).isSome)
      && (match List.lookup "accuracy_score" flds with
        | some v => isPyNumeric v
        | none => false)
  | _ => false

/-- The accuracy score carried by an evaluation result. -/
def scoreOf (e : Json) : Option Json :=
  match e with
  | .obj flds => List.lookup "accuracy_score" flds
  | _ => none

/-! ### The per-file evaluation loop (`compare_results`, lines 374-481)

The `evaluation_results` accumulation is embedded.  Inside one file's
`try` block (lines 397-443), a raise while loading or JSON-parsing the
files (lines 398-402) happens before anything was appended, while the
post-processing of lines 410-443 — the summary print, the CSV row and
the detail prints, all subscripting and iterating the evaluation dict —
runs after `evaluation_results.append` at line 405; the shared `except`
of line 445 appends the zero-score placeholder in either case.  So a
file contributes the placeholder alone, the appended evaluation alone,
or the evaluation followed by the placeholder.  File I/O and CSV writing
are otherwise not modelled; a file's run outcome is given as its
response text or its exception message, and the placeholder carries the
exception's abbreviated name for `str(e)`. -/

/-- The zero-score placeholder entry of lines 459-472. -/
def processingErrorResult (msg : String) : Json :=
  .obj [("accuracy_score", .num "0"),
        ("field_analysis", .obj [("correct_fields", .arr []),
          ("incorrect_fields", .arr [.str ("Processing error: " ++ msg)]),
          ("missing_fields", .arr [])]),
        ("quality_issues", .arr [.str "File processing failed"]),
        ("edge_case_handling", .arr []),
        ("improvement_suggestions", .arr [.str "Check file format and content"])]

/-- The abbreviation of `str(e)` carried into the placeholder. -/
def pyErrStr : PyErr → String
  | .typeError => "TypeError"
  | .keyError => "KeyError"
  | .indexError => "IndexError"
  | .valueError => "ValueError"

/-- Is the value a JSON string. -/
def isStrB : Json → Bool
  | .str _ => true
  | _ => false

/-- Is a JSON number lexeme nonzero: some mantissa digit is not `0`. -/
def numTruthy (s : String) : Bool :=
  (s.data.takeWhile fun c => !(c == 'e' || c == 'E')).any fun c => c.isDigit && !(c == '0')

/-- Python truthiness of a value as `json.loads` produces it. -/
def pyTruthy : Json → Bool
  | .null => false
  | .bool b => b
  | .num s => numTruthy s
  | .str s => !s.data.isEmpty
  | .arr l => !l.isEmpty
  | .obj flds => !flds.isEmpty

/-- `for x in v`: iterating a number, boolean or `None` raises
`TypeError`; strings, lists and dicts iterate. -/
def pyIter (v : Json) : Except PyErr Unit :=
  match v with
  | .str _ => .ok ()
  | .arr _ => .ok ()
  | .obj _ => .ok ()
  | _ => .error .typeError

/-- `'; '.join(v)`: the argument must iterate to strings — a string
(whose items are its characters) or a dict (whose items are its string
keys) joins, a list joins when every element is a string, anything else
raises `TypeError`. -/
def pyJoin (v : Json) : Except PyErr Unit :=
  match v with
  | .str _ => .ok ()
  | .obj _ => .ok ()
  | .arr l => if l.all isStrB then .ok () else .error .typeError
  | _ => .error .typeError

/-- `f"\x7bscore:.1f\x7d"` and `score >= 90` of lines 422-423: numbers and
booleans format and compare, a string raises `ValueError` at the format
spec, anything else `TypeError`. -/
def pyFmtScore (score : Json) : Except PyErr Unit :=
  match score with
  | .num _ => .ok ()
  | .bool _ => .ok ()
  | .str _ => .error .valueError
  | _ => .error .typeError

/-- The post-processing of one appended evaluation (lines 410-443), as
the sequence of its fallible operations on the evaluation value: the
summary line's subscript (line 411), the CSV `issues`/`suggestions`
conditionals with their joins (lines 414-415), the CSV row's score
format and comparison (lines 420-423), and the three detail-print
conditionals with their iterations (lines 429-443). -/
def postProcess (ev : Json) : Except PyErr Unit :=
  match pySubscript ev "accuracy_score" with
  | .error e => .error e
  | .ok _ =>
    match pySubscript ev "field_analysis" with
    | .error e => .error e
    | .ok fa =>
      match pySubscript fa "incorrect_fields" with
      | .error e => .error e
      | .ok inc =>
        match (if pyTruthy inc then pyJoin inc else .ok ()) with
        | .error e => .error e
        | .ok _ =>
          match pySubscript ev "improvement_suggestions" with
          | .error e => .error e
          | .ok sug =>
            match (if pyTruthy sug then pyJoin sug else .ok ()) with
            | .error e => .error e
            | .ok _ =>
              match pySubscript ev "accuracy_score" with
              | .error e => .error e
              | .ok score =>
                match pyFmtScore score with
                | .error e => .error e
                | .ok _ =>
                  match (if pyTruthy inc then pyIter inc else .ok ()) with
                  | .error e => .error e
                  | .ok _ =>
                    match pySubscript ev "quality_issues" with
                    | .error e => .error e
                    | .ok qi =>
                      match (if pyTruthy qi then pyIter qi else .ok ()) with
                      | .error e => .error e
                      | .ok _ =>
                        if pyTruthy sug then pyIter sug else .ok ()

/-- One file's contribution to `evaluation_results`: the placeholder
alone when loading the file raised (lines 398-402, before any append);
the appended evaluation alone when its post-processing runs through; the
appended evaluation and then the placeholder when the post-processing
raises after the append (line 445 catches both raise regions). -/
def fileEntries (f : String × Except String String) : List (String × Json) :=
  match f.2 with
  | .error e => [(f.1, processingErrorResult e)]
  | .ok resp =>
    match postProcess (evaluate_with_llm resp) with
    | .ok _ => [(f.1, evaluate_with_llm resp)]
    | .error err =>
      [(f.1, evaluate_with_llm resp), (f.1, processingErrorResult (pyErrStr err))]

/-- The evaluation-report accumulation of `compare_results`. -/
def compare_results (files : List (String × Except String String)) : List (String × Json) :=
  files.flatMap fileEntries

/-! ### HTML cleaning (`clean_html`, lines 75-87)

`clean_html` delegates to BeautifulSoup (parsing and `decompose()`) and
html2text (text rendering).  Modelled from the spec: the parser builds a
node tree (with `script`/`style` contents kept raw, as HTML defines),
`decompose` removes every `script`/`style` subtree, and rendering
concatenates the remaining text nodes (html2text's markdown decorations
are not modelled; the claim is about which text survives). -/

/-- A parsed HTML node. -/
inductive HNode where
  | text (s : String) : HNode
  | elem (tag : String) (children : List HNode) : HNode

/-- Is this a `script` or `style` tag. -/
def isSSTag (tag : String) : Bool := tag == "script" || tag == "style"

/-- Skip to just past the next `>` (the rest of a tag after its name). -/
def dropTag (cs : List Char) : List Char := (cs.dropWhile fun c => !(c == '>')).drop 1

/-- Raw-text content of a `script`/`style` element up to its closing tag. -/
def takeUntilClose : Nat → List Char → List Char × List Char
  | 0, cs => (cs, [])
  | _ + 1, [] => ([], [])
  | _ + 1, '<' :: '/' :: rest => ([], dropTag rest)
  | fuel + 1, c :: rest =>
    let p := takeUntilClose fuel rest
    (c :: p.1, p.2)

/-- Modelled from the spec: a permissive HTML tokenizer building a node
tree, with `script`/`style` elements taken as raw text.  The fuel only
makes the recursion structural. -/
def parseHtmlNodes : Nat → List Char → List HNode × List Char
  | 0, cs => ([], cs)
  | _ + 1, [] => ([], [])
  | _ + 1, '<' :: '/' :: rest => ([], dropTag rest)
  | fuel + 1, '<' :: rest =>
    let nm := rest.span fun c => c.isAlpha
    let name := String.mk nm.1
    let r2 := dropTag nm.2
    if isSSTag name then
      let p := takeUntilClose fuel r2
      let q := parseHtmlNodes fuel p.2
      (HNode.elem name [HNode.text (String.mk p.1)] :: q.1, q.2)
    else
      let kids := parseHtmlNodes fuel r2
      let q := parseHtmlNodes fuel kids.2
      (HNode.elem name kids.1 :: q.1, q.2)
  | fuel + 1, c :: rest =>
    let p := (c :: rest).span fun x => !(x == '<')
    let q := parseHtmlNodes fuel p.2
    (HNode.text (String.mk p.1) :: q.1, q.2)

/-- Modelled from the spec: parse an HTML document into a node list. -/
def parseHtml (s : String) : List HNode := (parseHtmlNodes (s.length * 2 + 2) s.toList).1

mutual

/-- `decompose()` of every `script`/`style` element: the whole subtree is
removed before any text extraction. -/
def removeSSNode : HNode → Option HNode
  | .text s => some (.text s)
  | .elem tag kids => if isSSTag tag then none else some (.elem tag (removeSS kids))

def removeSS : List HNode → List HNode
  | [] => []
  | n :: rest =>
    match removeSSNode n with
    | some m => m :: removeSS rest
    | none => removeSS rest

end

mutual

/-- Modelled from the spec: text rendering concatenates the tree's text
nodes. -/
def textOfNode : HNode → String
  | .text s => s
  | .elem _ kids => textOf kids

def textOf : List HNode → String
  | [] => ""
  | n :: rest => textOfNode n ++ textOf rest

end

/-- `clean_html` (lines 75-87): parse, remove `script`/`style` subtrees,
render the remaining text. -/
def clean_html (s : String) : String := textOf (removeSS (parseHtml s))

mutual

/-- C9's reading: the text of every node that has no `script`/`style`
ancestor, gathered directly from the unpruned tree. -/
def specTextNode : HNode → String
  | .text s => s
  | .elem tag kids => if isSSTag tag then "" else specText kids

def specText : List HNode → String
  | [] => ""
  | n :: rest => specTextNode n ++ specText rest

end

mutual

/-- No `script`/`style` element anywhere in the tree. -/
def noSSNode : HNode → Bool
  | .text _ => true
  | .elem tag kids => !(isSSTag tag) && noSSList kids

def noSSList : List HNode → Bool
  | [] => true
  | n :: rest => noSSNode n && noSSList rest

end

/-! ### The structural-diff strategy (C8)

Modelled from the spec: the source under `src/` has no structural diff
(only the LLM evaluation path); spec section 4.4 describes an
order-insensitive deep difference with an exact-match classification, so
the strategy is modelled from the spec's words and the claim is settled
against that model. -/

mutual

/-- A canonical serialization, used only as a sort key for the
order-insensitive comparison. -/
def jsonRepr : Json → String
  | .null => "null"
  | .bool b => if b then "true" else "false"
  | .num s => "n:" ++ s
  | .str s => "s:" ++ s
  | .arr l => "[" ++ jsonReprList l ++ "]"
  | .obj flds => "\x7b" ++ jsonReprFields flds ++ "\x7d"

def jsonReprList : List Json → String
  | [] => ""
  | v :: rest => jsonRepr v ++ "," ++ jsonReprList rest

def jsonReprFields : List (String × Json) → String
  | [] => ""
  | (k, v) :: rest => k ++ ":" ++ jsonRepr v ++ "," ++ jsonReprFields rest

end

/-- Lexicographic comparison of character lists (an executable order for
the canonical sort). -/
def charListLe : List Char → List Char → Bool
  | [], _ => true
  | _ :: _, [] => false
  | c :: cs, d :: ds =>
    if c.toNat < d.toNat then true
    else if d.toNat < c.toNat then false
    else charListLe cs ds

/-- Lexicographic comparison of strings. -/
def strLeB (a b : String) : Bool := charListLe a.toList b.toList

/-- Insertion into a sorted list. -/
def insertBy {α : Type} (le : α → α → Bool) (a : α) : List α → List α
  | [] => [a]
  | b :: rest => if le a b then a :: b :: rest else b :: insertBy le a rest

/-- Insertion sort (structural, so it evaluates in the kernel). -/
def sortBy {α : Type} (le : α → α → Bool) : List α → List α
  | [] => []
  | a :: rest => insertBy le a (sortBy le rest)

/-- Modelled from the spec: the order-insensitive canonical form — arrays
are sorted by the canonical serialization of their canonicalized
elements, object fields by key.  The fuel only makes the recursion
structural; `canon` supplies `sizeOf`, which exceeds the nesting depth. -/
def canonF : Nat → Json → Json
  | 0, v => v
  | fuel + 1, .arr l => .arr (sortBy (fun a b => strLeB (jsonRepr a) (jsonRepr b)) (l.map (canonF fuel)))
  | fuel + 1, .obj flds => .obj (sortBy (fun a b => strLeB a.1 b.1) (flds.map fun kv => (kv.1, canonF fuel kv.2)))
  | _ + 1, v => v

mutual

/-- Node count of a value, used only as canonicalization fuel. -/
def jsonSize : Json → Nat
  | .arr l => 1 + jsonSizeList l
  | .obj flds => 1 + jsonSizeFields flds
  | _ => 1

def jsonSizeList : List Json → Nat
  | [] => 0
  | v :: rest => jsonSize v + jsonSizeList rest

def jsonSizeFields : List (String × Json) → Nat
  | [] => 0
  | (_, v) :: rest => jsonSize v + jsonSizeFields rest

end

/-- The order-insensitive canonical form of a value. -/
def canon (v : Json) : Json := canonF (jsonSize v) v

/-- Equality modulo list ordering. -/
def permEq (a b : Json) : Bool := jsonBEq (canon a) (canon b)

/-- Keys of the actual object absent from the expected one. -/
def extraKeys (e a : List (String × Json)) : List String :=
  a.filterMap fun kv =>
    if (List.lookup kv.1 e).isSome then none else some ("added: " ++ kv.1)

/-- Modelled from the spec: the order-insensitive deep difference between
expected and actual.  The fuel only makes the recursion structural;
`deepDiff` supplies the expected side's node count, which exceeds its
nesting depth. -/
def deepDiffF : Nat → Json → Json → List String
  | 0, _, _ => []
  | fuel + 1, .obj e, .obj a =>
    (e.foldr (fun kv acc =>
      (match List.lookup kv.1 a with
        | some w => deepDiffF fuel kv.2 w
        | none => ["removed: " ++ kv.1]) ++ acc) [])
    ++ extraKeys e a
  | _ + 1, .arr x, .arr y =>
    if jsonBEq (canon (.arr x)) (canon (.arr y)) then [] else ["array changed"]
  | _ + 1, x, y => if jsonBEq x y then [] else ["value changed"]

/-- The order-insensitive deep difference between expected and actual. -/
def deepDiff (e a : Json) : List String := deepDiffF (jsonSize e) e a

/-- Modelled from the spec: the per-file classification. -/
def diffClassify (e a : Json) : String :=
  if (deepDiff e a).isEmpty then "Exact Match" else "Has Differences"

/-! ### Claim-side reading of the schema (C5) -/

/-- The 14 string-typed top-level fields `SCHEMA` lists. -/
def stringFields : List String :=
  ["order_id", "created_date", "order_source_name", "order_source_name_merchant",
   "billing_address", "tracking_number", "carrier_reference_raw", "to_address",
   "expected_delivery_from", "expected_delivery_to", "shipment_value",
   "order_total_tax", "total_shipping_cost", "order_total_price"]

/-- The 12 string-typed line-item fields `SCHEMA` lists. -/
def itemStringFields : List String :=
  ["product_id", "product_name", "product_description", "quantity",
   "product_cost", "product_discount", "product_price", "subtotal_cost",
   "tax_amount", "misc_cost", "discount_amount", "total_price"]

/-- C5's reading of the constraint on one line item: an object whose
listed fields, when present, are strings (unlisted fields are free). -/
def lineItemOk (v : Json) : Bool :=
  match v with
  | .obj flds => flds.all fun kv => !(decide (kv.1 ∈ itemStringFields)) || isStrB kv.2
  | _ => false

/-- C5's reading of the constraint on the `line_items` field: an array
of valid line items. -/
def lineItemsOk (v : Json) : Bool :=
  match v with
  | .arr l => l.all lineItemOk
  | _ => false

/-- C5's reading of the constraint on one top-level field: a listed
string field must be a string, `line_items` must be an array of valid
line items, and unlisted fields are free — presence is never required. -/
def topFieldOk (k : String) (v : Json) : Bool :=
  if k ∈ stringFields then isStrB v
  else if k = "line_items" then lineItemsOk v
  else true

/-! ## Theorems

Everything below is proof: first the general lemmas about the embedded
definitions, then one theorem (with witness or counterexample) per claim. -/

mutual

theorem jsonBEq_iff : ∀ a b : Json, jsonBEq a b = true ↔ a = b
  | .null, b => by cases b <;> simp [jsonBEq]
  | .bool x, b => by cases b <;> simp [jsonBEq]
  | .num x, b => by cases b <;> simp [jsonBEq]
  | .str x, b => by cases b <;> simp [jsonBEq]
  | .arr xs, b => by
    cases b with
    | arr ys => rw [show jsonBEq (Json.arr xs) (Json.arr ys) = jsonBEqList xs ys from rfl,
        jsonBEqList_iff xs ys]; simp
    | null => simp [jsonBEq]
    | bool y => simp [jsonBEq]
    | num y => simp [jsonBEq]
    | str y => simp [jsonBEq]
    | obj ys => simp [jsonBEq]
  | .obj xs, b => by
    cases b with
    | obj ys => rw [show jsonBEq (Json.obj xs) (Json.obj ys) = jsonBEqFields xs ys from rfl,
        jsonBEqFields_iff xs ys]; simp
    | null => simp [jsonBEq]
    | bool y => simp [jsonBEq]
    | num y => simp [jsonBEq]
    | str y => simp [jsonBEq]
    | arr ys => simp [jsonBEq]

theorem jsonBEqList_iff : ∀ xs ys : List Json, jsonBEqList xs ys = true ↔ xs = ys
  | [], ys => by cases ys <;> simp [jsonBEqList]
  | x :: xs, ys => by
    cases ys with
    | nil => simp [jsonBEqList]
    | cons y ys =>
      rw [show jsonBEqList (x :: xs) (y :: ys) = (jsonBEq x y && jsonBEqList xs ys) from rfl]
      simp [Bool.and_eq_true, jsonBEq_iff x y, jsonBEqList_iff xs ys]

theorem jsonBEqFields_iff :
    ∀ xs ys : List (String × Json), jsonBEqFields xs ys = true ↔ xs = ys
  | [], ys => by cases ys <;> simp [jsonBEqFields]
  | (k, v) :: xs, ys => by
    cases ys with
    | nil => simp [jsonBEqFields]
    | cons p ys =>
      rw [show jsonBEqFields ((k, v) :: xs) (p :: ys)
          = (k == p.1 && jsonBEq v p.2 && jsonBEqFields xs ys) from by cases p; rfl]
      simp [Bool.and_eq_true, jsonBEq_iff v p.2, jsonBEqFields_iff xs ys, Prod.ext_iff]

end

instance : DecidableEq Json := fun a b =>
  decidable_of_iff (jsonBEq a b = true) (jsonBEq_iff a b)

example : jsonLoads "\x7b\"order_id\": \"A1\"\x7d"
    = some (.obj [("order_id", .str "A1")]) := by decide
example : jsonLoads " \x7b\"a\": [1, true, null, \"x\"]\x7d " =
    some (.obj [("a", .arr [.num "1", .bool true, .null, .str "x"])]) := by decide
example : jsonLoads "\x7b\"a\": 1,\x7d" = none := by decide
example : jsonLoads "01" = none := by decide
example : jsonLoads "-1.5e+2" = some (.num "-1.5e+2") := by decide
example : jsonLoads "tru" = none := by decide
example : jsonLoads "\x7b\"a\": 1, \"a\": 2\x7d" = some (.obj [("a", .num "2")]) := by decide
example : validate_json_output "```json\x7b\"order_id\": \"A1\"\x7d```"
    = .ok (.obj [("order_id", .str "A1")]) := by decide
example : validate_json_output "``` \x7b\"order_id\": \"A1\"\x7d ```"
    = .ok (.obj [("order_id", .str "A1")]) := by decide
example : validate_json_output "\x7b\"order_id\": 7\x7d" = .error .schemaViolation := by decide
example : validate_json_output "not json" = .error .malformedExtraction := by decide
example : validate_json_output "\x7b\x7d" = .ok (.obj []) := by decide

/-! ### The accuracy walk and its gated counters -/

theorem containsB_of_ok {act : Json} {k : String} {b : Bool} (h : pyContains act k = .ok b) :
    containsB act k = b := by simp [containsB, h, exceptD]

theorem subD_of_ok {act : Json} {k : String} {v : Json} (h : pySubscript act k = .ok v) :
    subD act k = v := by simp [subD, h, exceptD]

theorem lenD_of_ok {act : Json} {n : Nat} (h : pyLen act = .ok n) :
    lenD act = n := by simp [lenD, h, exceptD]

theorem idxD_of_ok {act : Json} {i : Nat} {v : Json} (h : pyIndexNat act i = .ok v) :
    idxD act i = v := by simp [idxD, h, exceptD]

mutual

theorem compareValues_gCounts : ∀ (exp act : Json) (st : Nat × Nat) (t c : Nat),
    compareValues exp act st = .ok (t, c) →
    t = st.1 + (gCounts exp act).1 ∧ c = st.2 + (gCounts exp act).2
  | .obj flds, act, st, t, c, h => by
    have := compareFields_gCounts flds act st t c h
    simpa [gCounts] using this
  | .arr items, act, st, t, c, h => by
    have := compareItems_gCounts items act 0 st t c h
    simpa [gCounts] using this
  | .null, act, st, t, c, h => by
    simp only [compareValues] at h
    cases h
    simp [gCounts]
  | .bool b, act, st, t, c, h => by
    simp only [compareValues] at h
    cases h
    simp [gCounts]
  | .num s, act, st, t, c, h => by
    simp only [compareValues] at h
    cases h
    simp [gCounts]
  | .str s, act, st, t, c, h => by
    simp only [compareValues] at h
    cases h
    simp [gCounts]

theorem compareFields_gCounts : ∀ (flds : List (String × Json)) (act : Json) (st : Nat × Nat) (t c : Nat),
    compareFields flds act st = .ok (t, c) →
    t = st.1 + (gCountsFields flds act).1 ∧ c = st.2 + (gCountsFields flds act).2
  | [], act, st, t, c, h => by
    simp only [compareFields] at h
    cases h
    simp [gCountsFields]
  | (key, ev) :: rest, act, st, t, c, h => by
    simp only [compareFields] at h
    cases hpc : pyContains act key with
    | error e => rw [hpc] at h; simp at h
    | ok b =>
      rw [hpc] at h
      cases b with
      | false =>
        simp only [Bool.false_eq_true, if_false] at h
        have ih := compareFields_gCounts rest act (st.1 + 1, st.2) t c h
        simp only [gCountsFields, containsB_of_ok hpc]
        simp only [Bool.false_and, Bool.false_eq_true, if_false] at *
        omega
      | true =>
        simp only [if_true] at h
        cases hps : pySubscript act key with
        | error e => rw [hps] at h; simp at h
        | ok av =>
          rw [hps] at h
          simp only [] at h
          by_cases hic : isContainer ev = true
          · rw [if_pos hic] at h
            cases hcv : compareValues ev av (st.1 + 1, if jsonBEq ev av = true then st.2 + 1 else st.2) with
            | error e => rw [hcv] at h; simp at h
            | ok st2 =>
              rw [hcv] at h
              have ih1 := compareValues_gCounts ev av
                (st.1 + 1, if jsonBEq ev av = true then st.2 + 1 else st.2) st2.1 st2.2 (by rw [hcv])
              have ih2 := compareFields_gCounts rest act st2 t c h
              simp only [gCountsFields, containsB_of_ok hpc, subD_of_ok hps, hic,
                Bool.true_and, if_true] at *
              by_cases hbe : jsonBEq ev av = true <;> simp only [hbe, Bool.false_eq_true,
                if_true, if_false] at ih1 ⊢ <;> omega
          · rw [if_neg hic] at h
            have ih := compareFields_gCounts rest act _ t c h
            have hic' : isContainer ev = false := by simpa using hic
            simp only [gCountsFields, containsB_of_ok hpc, subD_of_ok hps, hic',
              Bool.and_false, Bool.true_and, Bool.false_eq_true, if_false] at *
            by_cases hbe : jsonBEq ev av = true <;> simp only [hbe, Bool.false_eq_true,
              if_true, if_false] at ih ⊢ <;> omega

theorem compareItems_gCounts : ∀ (items : List Json) (act : Json) (i : Nat) (st : Nat × Nat) (t c : Nat),
    compareItems items act i st = .ok (t, c) →
    t = st.1 + (gCountsItems items act i).1 ∧ c = st.2 + (gCountsItems items act i).2
  | [], act, i, st, t, c, h => by
    simp only [compareItems] at h
    cases h
    simp [gCountsItems]
  | item :: rest, act, i, st, t, c, h => by
    simp only [compareItems] at h
    cases hpl : pyLen act with
    | error e => rw [hpl] at h; simp at h
    | ok n =>
      rw [hpl] at h
      simp only [] at h
      by_cases hin : i < n
      · rw [if_pos hin] at h
        cases hpi : pyIndexNat act i with
        | error e => rw [hpi] at h; simp at h
        | ok av =>
          rw [hpi] at h
          simp only [] at h
          cases hcv : compareValues item av st with
          | error e => rw [hcv] at h; simp at h
          | ok st2 =>
            rw [hcv] at h
            have ih1 := compareValues_gCounts item av st st2.1 st2.2 (by rw [hcv])
            have ih2 := compareItems_gCounts rest act (i + 1) st2 t c h
            simp only [gCountsItems, lenD_of_ok hpl, idxD_of_ok hpi, if_pos hin]
            omega
      · rw [if_neg hin] at h
        have ih := compareItems_gCounts rest act (i + 1) st t c h
        simp only [gCountsItems, lenD_of_ok hpl, if_neg hin]
        omega

end

/-! ### Self-comparison of a well-formed record -/

theorem lookup_eq_of_mem_nodup : ∀ (flds : List (String × Json)) (kv : String × Json),
    (flds.map Prod.fst).Nodup → kv ∈ flds → List.lookup kv.1 flds = some kv.2
  | (k, v) :: rest, kv, hnd, hm => by
    simp only [List.map_cons, List.nodup_cons] at hnd
    rcases List.mem_cons.mp hm with heq | hmem
    · subst heq
      simp [List.lookup]
    · have hne : kv.1 ≠ k := by
        intro hcontra
        exact hnd.1 (hcontra ▸ List.mem_map_of_mem Prod.fst hmem)
      have hbf : (kv.1 == k) = false := beq_eq_false_iff_ne.mpr hne
      simp only [List.lookup, hbf]
      exact lookup_eq_of_mem_nodup rest kv hnd.2 hmem

theorem wfKeysFields_mem : ∀ (flds : List (String × Json)) (kv : String × Json),
    wfKeysFields flds = true → kv ∈ flds → wfKeys kv.2 = true
  | (k, v) :: rest, kv, hw, hm => by
    simp only [wfKeysFields, Bool.and_eq_true] at hw
    rcases List.mem_cons.mp hm with heq | hmem
    · subst heq; exact hw.1
    · exact wfKeysFields_mem rest kv hw.2 hmem

theorem wfKeysList_mem : ∀ (items : List Json) (v : Json),
    wfKeysList items = true → v ∈ items → wfKeys v = true
  | x :: rest, v, hw, hm => by
    simp only [wfKeysList, Bool.and_eq_true] at hw
    rcases List.mem_cons.mp hm with heq | hmem
    · subst heq; exact hw.1
    · exact wfKeysList_mem rest v hw.2 hmem

mutual

theorem compareValues_self : ∀ (v : Json), wfKeys v = true →
    ∀ st : Nat × Nat, ∃ n, compareValues v v st = .ok (st.1 + n, st.2 + n)
  | .obj flds, hw, st => by
    simp only [wfKeys, Bool.and_eq_true, decide_eq_true_eq] at hw
    refine compareFields_self flds (.obj flds) ?_ st
    intro kv hm
    refine ⟨?_, ?_, wfKeysFields_mem flds kv hw.2 hm⟩
    · simp only [pyContains, Except.ok.injEq]
      exact List.any_eq_true.mpr ⟨kv, hm, by simp⟩
    · simp only [pySubscript, lookup_eq_of_mem_nodup flds kv hw.1 hm]
  | .arr items, hw, st => by
    simp only [wfKeys] at hw
    refine compareItems_self items (.arr items) 0 items.length rfl (by simp) ?_ st
    intro j item' hj
    constructor
    · simp only [pyIndexNat, Nat.zero_add, hj]
    · exact wfKeysList_mem items item' hw (List.getElem?_mem hj)
  | .null, hw, st => ⟨0, by simp [compareValues]⟩
  | .bool b, hw, st => ⟨0, by simp [compareValues]⟩
  | .num s, hw, st => ⟨0, by simp [compareValues]⟩
  | .str s, hw, st => ⟨0, by simp [compareValues]⟩

theorem compareFields_self : ∀ (flds : List (String × Json)) (act : Json),
    (∀ kv ∈ flds, pyContains act kv.1 = .ok true ∧ pySubscript act kv.1 = .ok kv.2 ∧
      wfKeys kv.2 = true) →
    ∀ st : Nat × Nat, ∃ n, compareFields flds act st = .ok (st.1 + n, st.2 + n)
  | [], act, hh, st => ⟨0, by simp [compareFields]⟩
  | (key, ev) :: rest, act, hh, st => by
    obtain ⟨hc, hs, hwv⟩ := hh (key, ev) (List.mem_cons_self _ _)
    have hbeq : jsonBEq ev ev = true := (jsonBEq_iff ev ev).mpr rfl
    by_cases hic : isContainer ev = true
    · obtain ⟨m, hm⟩ := compareValues_self ev hwv (st.1 + 1, st.2 + 1)
      simp only at hm
      obtain ⟨n, hn⟩ := compareFields_self rest act
        (fun kv hkv => hh kv (List.mem_cons_of_mem _ hkv)) (st.1 + 1 + m, st.2 + 1 + m)
      refine ⟨1 + m + n, ?_⟩
      simp only [compareFields, hc, hs, hbeq, hic, eq_self_iff_true, if_true]
      rw [hm]
      simp only []
      rw [hn]
      simp [Nat.add_assoc]
    · obtain ⟨n, hn⟩ := compareFields_self rest act
        (fun kv hkv => hh kv (List.mem_cons_of_mem _ hkv)) (st.1 + 1, st.2 + 1)
      refine ⟨1 + n, ?_⟩
      simp only [compareFields, hc, hs, hbeq, hic, eq_self_iff_true, if_true, if_false]
      rw [hn]
      simp [Nat.add_assoc]

theorem compareItems_self : ∀ (items : List Json) (act : Json) (i : Nat) (n : Nat),
    pyLen act = .ok n → i + items.length ≤ n →
    (∀ (j : Nat) (item' : Json), items[j]? = some item' →
      pyIndexNat act (i + j) = .ok item' ∧ wfKeys item' = true) →
    ∀ st : Nat × Nat, ∃ m, compareItems items act i st = .ok (st.1 + m, st.2 + m)
  | [], act, i, n, hn, hb, hidx, st => ⟨0, by simp [compareItems]⟩
  | item :: rest, act, i, n, hn, hb, hidx, st => by
    obtain ⟨hpi, hwv⟩ := hidx 0 item (by simp)
    simp only [List.length_cons] at hb
    have hin : i < n := by omega
    rw [show i + 0 = i from rfl] at hpi
    obtain ⟨m, hm⟩ := compareValues_self item hwv st
    obtain ⟨m2, hm2⟩ := compareItems_self rest act (i + 1) n hn (by omega)
      (fun j item' hj => by
        have hx := hidx (j + 1) item' (by simpa using hj)
        rwa [show i + (j + 1) = i + 1 + j from by omega] at hx)
      (st.1 + m, st.2 + m)
    simp only at hm2
    refine ⟨m + m2, ?_⟩
    simp only [compareItems, hn, if_pos hin, hpi]
    rw [hm]
    simp only []
    rw [hm2]
    simp [Nat.add_assoc]

end

/-! ### Disjoint keys, positional truncation and totality of the walk -/

theorem compareFields_disjoint : ∀ (flds aflds : List (String × Json)) (st : Nat × Nat),
    (∀ kv ∈ flds, ∀ kw ∈ aflds, kv.1 ≠ kw.1) →
    compareFields flds (.obj aflds) st = .ok (st.1 + flds.length, st.2)
  | [], aflds, st, hd => by simp [compareFields]
  | (key, ev) :: rest, aflds, st, hd => by
    have hc : pyContains (.obj aflds) key = .ok false := by
      simp only [pyContains, Except.ok.injEq]
      rw [List.any_eq_false]
      intro kw hkw
      simpa using (hd (key, ev) (List.mem_cons_self _ _) kw hkw).symm
    have ih := compareFields_disjoint rest aflds (st.1 + 1, st.2)
      (fun kv hkv => hd kv (List.mem_cons_of_mem _ hkv))
    simp only [compareFields, hc, Bool.false_eq_true, if_false, ih, List.length_cons]
    simp [Nat.add_assoc, Nat.add_comm 1 rest.length]

theorem compareItems_skip : ∀ (extra a : List Json) (i : Nat) (st : Nat × Nat),
    a.length ≤ i → compareItems extra (.arr a) i st = .ok st
  | [], a, i, st, hb => by simp [compareItems]
  | x :: rest, a, i, st, hb => by
    have hn : pyLen (Json.arr a) = .ok a.length := rfl
    simp only [compareItems, hn, if_neg (by omega : ¬ i < a.length)]
    exact compareItems_skip rest a (i + 1) st (by omega)

theorem compareItems_append : ∀ (e extra a : List Json) (i : Nat) (st : Nat × Nat),
    a.length ≤ i + e.length →
    compareItems (e ++ extra) (.arr a) i st = compareItems e (.arr a) i st
  | [], extra, a, i, st, hb => by
    simp only [List.nil_append]
    rw [compareItems_skip extra a i st (by simpa using hb)]
    simp [compareItems]
  | x :: e', extra, a, i, st, hb => by
    have hn : pyLen (Json.arr a) = .ok a.length := rfl
    simp only [List.cons_append, compareItems, hn]
    by_cases hin : i < a.length
    · rw [if_pos hin, if_pos hin]
      cases hpi : pyIndexNat (.arr a) i with
      | error er => rfl
      | ok av =>
        simp only []
        cases hcv : compareValues x av st with
        | error er => rfl
        | ok st2 =>
          simp only []
          exact compareItems_append e' extra a (i + 1) st2 (by
            simp only [List.length_cons] at hb; omega)
    · rw [if_neg hin, if_neg hin]
      exact compareItems_append e' extra a (i + 1) st (by
        simp only [List.length_cons] at hb; omega)

theorem exceptIsOk_error {α : Type} {e : PyErr} : (Except.error e : Except PyErr α).isOk = false := rfl

mutual

theorem supportsOps_ok : ∀ (exp act : Json), supportsOps exp act = true →
    ∀ st : Nat × Nat, ∃ st2, compareValues exp act st = .ok st2
  | .obj flds, act, hs, st => by
    simp only [supportsOps] at hs
    exact supportsFields_ok flds act hs st
  | .arr items, act, hs, st => by
    simp only [supportsOps] at hs
    exact supportsItems_ok items act 0 hs st
  | .null, act, hs, st => ⟨st, by simp [compareValues]⟩
  | .bool b, act, hs, st => ⟨st, by simp [compareValues]⟩
  | .num s, act, hs, st => ⟨st, by simp [compareValues]⟩
  | .str s, act, hs, st => ⟨st, by simp [compareValues]⟩

theorem supportsFields_ok : ∀ (flds : List (String × Json)) (act : Json),
    supportsFields flds act = true →
    ∀ st : Nat × Nat, ∃ st2, compareFields flds act st = .ok st2
  | [], act, hs, st => ⟨st, by simp [compareFields]⟩
  | (key, ev) :: rest, act, hs, st => by
    simp only [supportsFields, Bool.and_eq_true] at hs
    obtain ⟨⟨⟨h1, h2⟩, h3⟩, h4⟩ := hs
    cases hpc : pyContains act key with
    | error e => rw [hpc] at h1; cases h1
    | ok b =>
      have hcb : containsB act key = b := by simp [containsB, hpc, exceptD]
      cases b with
      | false =>
        simp only [compareFields, hpc, Bool.false_eq_true, if_false]
        exact supportsFields_ok rest act h4 (st.1 + 1, st.2)
      | true =>
        rw [hcb] at h2 h3
        simp only [Bool.not_true, Bool.false_or] at h2
        cases hps : pySubscript act key with
        | error e => rw [hps] at h2; cases h2
        | ok av =>
          have hsd : subD act key = av := by simp [subD, hps, exceptD]
          simp only [compareFields, hpc, if_true]
          rw [hps]
          simp only []
          by_cases hic : isContainer ev = true
          · rw [if_pos hic]
            rw [hic, hsd] at h3
            simp only [Bool.true_and, Bool.not_true, Bool.false_or] at h3
            obtain ⟨st2, hst2⟩ := supportsOps_ok ev av h3
              (st.1 + 1, if jsonBEq ev av = true then st.2 + 1 else st.2)
            rw [hst2]
            simp only []
            exact supportsFields_ok rest act h4 st2
          · rw [if_neg hic]
            exact supportsFields_ok rest act h4 _

theorem supportsItems_ok : ∀ (items : List Json) (act : Json) (i : Nat),
    supportsItems items act i = true →
    ∀ st : Nat × Nat, ∃ st2, compareItems items act i st = .ok st2
  | [], act, i, hs, st => ⟨st, by simp [compareItems]⟩
  | item :: rest, act, i, hs, st => by
    simp only [supportsItems, Bool.and_eq_true] at hs
    obtain ⟨⟨h1, h2⟩, h3⟩ := hs
    cases hpl : pyLen act with
    | error e => rw [hpl] at h1; cases h1
    | ok n =>
      have hld : lenD act = n := by simp [lenD, hpl, exceptD]
      rw [hld] at h2
      simp only [compareItems, hpl]
      by_cases hin : i < n
      · rw [if_pos hin]
        rw [decide_eq_true hin] at h2
        simp only [Bool.not_true, Bool.false_or, Bool.and_eq_true] at h2
        obtain ⟨h2a, h2b⟩ := h2
        cases hpi : pyIndexNat act i with
        | error e => rw [hpi] at h2a; cases h2a
        | ok av =>
          have hid : idxD act i = av := by simp [idxD, hpi, exceptD]
          rw [hid] at h2b
          simp only []
          obtain ⟨st2, hst2⟩ := supportsOps_ok item av h2b st
          rw [hst2]
          simp only []
          exact supportsItems_ok rest act (i + 1) h3 st2
      · rw [if_neg hin]
        exact supportsItems_ok rest act (i + 1) h3 st

end

/-- C2: `calculate_accuracy` returns `correct_fields / total_fields * 100`
(0 when the total is 0), where the counters are those of the code's gated
walk (`gCounts`): recursion into a nested mapping or list happens only
when the key is also present in actual.  The C2 scenario with one of two
fields differing scores 50. -/
theorem c2_accuracy_formula_and_scenario :
    (∀ (expected actual : Json) (q : ℚ), calculate_accuracy expected actual = .ok q →
      q = if 0 < (gCounts expected actual).1
        then ((gCounts expected actual).2 : ℚ) / ((gCounts expected actual).1 : ℚ) * 100
        else 0)
    ∧ calculate_accuracy (.obj [("order_id", .str "A1"), ("order_total_price", .str "$10")])
        (.obj [("order_id", .str "A1"), ("order_total_price", .str "$12")]) = .ok 50 := by
  constructor
  · intro expected actual q h
    cases hcv : compareValues expected actual (0, 0) with
    | error e => rw [calculate_accuracy, hcv] at h; cases h
    | ok tc =>
      rw [calculate_accuracy, hcv] at h
      simp only [Except.ok.injEq] at h
      obtain ⟨ht, hc⟩ := compareValues_gCounts expected actual (0, 0) tc.1 tc.2
        (by rw [hcv])
      simp only [Nat.zero_add] at ht hc
      rw [← h, ht, hc]
  · have hcv : compareValues (.obj [("order_id", .str "A1"), ("order_total_price", .str "$10")])
        (.obj [("order_id", .str "A1"), ("order_total_price", .str "$12")]) (0, 0)
        = .ok (2, 1) := by decide
    rw [calculate_accuracy, hcv]
    norm_num

/-- C2 witness: the formula conjunct applied at a concrete pair. -/
theorem c2_accuracy_formula_witness :
    (0 : ℚ) = if 0 < (gCounts (.obj [("x", .str "1")]) (.obj [])).1
      then ((gCounts (.obj [("x", .str "1")]) (.obj [])).2 : ℚ)
        / ((gCounts (.obj [("x", .str "1")]) (.obj [])).1 : ℚ) * 100
      else 0 :=
  c2_accuracy_formula_and_scenario.1 (.obj [("x", .str "1")]) (.obj []) 0 (by
    have hcv : compareValues (.obj [("x", .str "1")]) (.obj []) (0, 0) = .ok (1, 0) := by decide
    rw [calculate_accuracy, hcv]
    simp)

/-- C2 counterexample: read as the claim words it — `total_fields` counts
every key of every mapping reachable inside expected, unconditionally —
the predicted score of `{"a": {"b": "1"}, "c": "2"}` against
`{"c": "2"}` is 100/3, but the code returns 50: the code never recurses
into `"a"`'s nested mapping because `"a"` is absent from actual, so `"b"`
is not counted. -/
theorem c2_counterexample_reachable_reading :
    calculate_accuracy (.obj [("a", .obj [("b", .str "1")]), ("c", .str "2")])
      (.obj [("c", .str "2")]) = .ok 50
    ∧ specAccuracy (.obj [("a", .obj [("b", .str "1")]), ("c", .str "2")])
      (.obj [("c", .str "2")]) = 100 / 3
    ∧ (100 / 3 : ℚ) ≠ 50 := by
  refine ⟨?_, ?_, by norm_num⟩
  · have hcv : compareValues (.obj [("a", .obj [("b", .str "1")]), ("c", .str "2")])
        (.obj [("c", .str "2")]) (0, 0) = .ok (2, 1) := by decide
    rw [calculate_accuracy, hcv]
    norm_num
  · have h1 : specTotal (.obj [("a", .obj [("b", .str "1")]), ("c", .str "2")]) = 3 := by decide
    have h2 : specCorrect (.obj [("a", .obj [("b", .str "1")]), ("c", .str "2")])
        (some (.obj [("c", .str "2")])) = 1 := by decide
    rw [specAccuracy, h1, h2]
    norm_num

/-- C3: comparing a well-formed record against itself scores 100 whenever
the walk counts at least one field, and two objects with disjoint keys
score 0. -/
theorem c3_self_hundred_disjoint_zero :
    (∀ (r : Json) (t c : Nat), wfKeys r = true → compareValues r r (0, 0) = .ok (t, c) →
      0 < t → calculate_accuracy r r = .ok 100)
    ∧ (∀ (eflds aflds : List (String × Json)),
        (∀ kv ∈ eflds, ∀ kw ∈ aflds, kv.1 ≠ kw.1) →
        calculate_accuracy (.obj eflds) (.obj aflds) = .ok 0) := by
  constructor
  · intro r t c hw hcv ht
    obtain ⟨n, hn⟩ := compareValues_self r hw (0, 0)
    simp only [Nat.zero_add] at hn
    rw [hn] at hcv
    simp only [Except.ok.injEq, Prod.mk.injEq] at hcv
    obtain ⟨h1, h2⟩ := hcv
    have htn : 0 < n := by omega
    rw [calculate_accuracy, hn]
    simp only [if_pos htn]
    have hne : (n : ℚ) ≠ 0 := by
      exact_mod_cast Nat.pos_iff_ne_zero.mp htn
    rw [div_self hne]
    norm_num
  · intro eflds aflds hd
    have hcf : compareFields eflds (.obj aflds) (0, 0) = .ok (eflds.length, 0) := by
      simpa using compareFields_disjoint eflds aflds (0, 0) hd
    rw [calculate_accuracy, show compareValues (.obj eflds) (.obj aflds) (0, 0)
      = compareFields eflds (.obj aflds) (0, 0) from rfl, hcf]
    simp

/-- C3 witness: both conjuncts applied at concrete records. -/
theorem c3_self_hundred_disjoint_zero_witness :
    calculate_accuracy (.obj [("k", .str "v")]) (.obj [("k", .str "v")]) = .ok 100
    ∧ calculate_accuracy (.obj [("a", .str "1")]) (.obj [("b", .str "2")]) = .ok 0 :=
  ⟨c3_self_hundred_disjoint_zero.1 (.obj [("k", .str "v")]) 1 1 (by decide) (by decide)
      (by decide),
    c3_self_hundred_disjoint_zero.2 [("a", .str "1")] [("b", .str "2")] (by decide)⟩

/-- C4: list comparison is by positional index only — expected items at
indices at or beyond the actual list's length contribute nothing, so
extending the expected list beyond the actual list's length never changes
the walk's outcome or the returned score. -/
theorem c4_list_positional_truncation :
    ∀ (e extra a : List Json),
      (∀ (i : Nat) (st : Nat × Nat), a.length ≤ i + e.length →
        compareItems (e ++ extra) (.arr a) i st = compareItems e (.arr a) i st)
      ∧ (a.length ≤ e.length →
        calculate_accuracy (.arr (e ++ extra)) (.arr a) = calculate_accuracy (.arr e) (.arr a)) := by
  intro e extra a
  constructor
  · intro i st hb
    exact compareItems_append e extra a i st hb
  · intro hb
    rw [calculate_accuracy, calculate_accuracy,
      show compareValues (.arr (e ++ extra)) (.arr a) (0, 0)
        = compareItems (e ++ extra) (.arr a) 0 (0, 0) from rfl,
      show compareValues (.arr e) (.arr a) (0, 0)
        = compareItems e (.arr a) 0 (0, 0) from rfl,
      compareItems_append e extra a 0 (0, 0) (by simpa using hb)]

/-- C4 witness: the truncation equalities at a concrete triple. -/
theorem c4_list_positional_truncation_witness :
    compareItems ([.str "x"] ++ [.str "y", .str "z"]) (.arr [.str "x"]) 0 (0, 0)
      = compareItems [.str "x"] (.arr [.str "x"]) 0 (0, 0)
    ∧ calculate_accuracy (.arr ([.str "x"] ++ [.str "y", .str "z"])) (.arr [.str "x"])
      = calculate_accuracy (.arr [.str "x"]) (.arr [.str "x"]) :=
  ⟨(c4_list_positional_truncation [.str "x"] [.str "y", .str "z"] [.str "x"]).1 0 (0, 0)
      (by decide),
    (c4_list_positional_truncation [.str "x"] [.str "y", .str "z"] [.str "x"]).2 (by decide)⟩

/-- C10: `calculate_accuracy` is not total — a nested mapping in expected
against a number in actual raises `TypeError` from `key in act`, and an
expected list against a non-empty mapping raises `KeyError` from
`act[i]`; it returns a score whenever every membership/length/indexing
operation the walk applies to the actual structure is supported
(`supportsOps`). -/
theorem c10_partiality_and_sufficiency :
    calculate_accuracy (.obj [("k", .obj [("a", .str "1")])]) (.obj [("k", .num "5")])
      = .error .typeError
    ∧ calculate_accuracy (.obj [("k", .arr [.str "x"])]) (.obj [("k", .obj [("z", .str "1")])])
      = .error .keyError
    ∧ ∀ (expected actual : Json), supportsOps expected actual = true →
        ∃ q, calculate_accuracy expected actual = .ok q := by
  refine ⟨by decide, by decide, ?_⟩
  intro expected actual hs
  obtain ⟨st2, hst2⟩ := supportsOps_ok expected actual hs (0, 0)
  obtain ⟨t2, c2⟩ := st2
  exact ⟨if 0 < t2 then (c2 : ℚ) / (t2 : ℚ) * 100 else 0, by rw [calculate_accuracy, hst2]⟩

/-- C10 witness: the sufficiency conjunct applied at a concrete pair. -/
theorem c10_partiality_and_sufficiency_witness :
    ∃ q, calculate_accuracy (.obj [("k", .str "v")]) (.obj [("k", .str "w")]) = .ok q :=
  c10_partiality_and_sufficiency.2.2 (.obj [("k", .str "v")]) (.obj [("k", .str "w")]) (by decide)

/-! ### The schema characterization (C5)

We characterize `schemaOK` on well-formed objects field-by-field and relate the
two error constructors of `validate_json_output` to the parse outcome. -/

theorem lookup_mem : ∀ (l : List (String × Json)) (a : String) (b : Json),
    List.lookup a l = some b → (a, b) ∈ l
  | (k, v) :: rest, a, b, h => by
    simp only [List.lookup] at h
    by_cases hk : (a == k) = true
    · rw [hk] at h
      simp only [Option.some.injEq] at h
      have hak : a = k := by simpa using hk
      subst hak; subst h
      exact List.mem_cons_self _ _
    · rw [Bool.not_eq_true] at hk
      rw [hk] at h
      exact List.mem_cons_of_mem _ (lookup_mem rest a b h)

theorem validateSchema_succ (f : Nat) (s : Schema) (v : Json) :
    validateSchema (f + 1) s v = validateSchemaStep (validateSchema f) s v := rfl

theorem validateStr (f : Nat) (v : Json) : validateSchema (f + 1) strSchema v = isStrB v := by
  cases v <;> simp [validateSchema, validateSchemaStep, strSchema, typeMatches, isStrB]

theorem stringFields_entry : ∀ k ∈ stringFields, (k, strSchema) ∈ topProps := by
  intro k hk
  fin_cases hk <;> simp [topProps]

theorem itemStringFields_entry : ∀ k ∈ itemStringFields, (k, strSchema) ∈ lineItemProps := by
  intro k hk
  fin_cases hk <;> simp [lineItemProps]

theorem validateLineItem_iff (v : Json) (hw : wfKeys v = true) :
    (validateSchema 6 lineItemSchema v = true ↔ lineItemOk v = true) := by
  have h6 : validateSchema 6 lineItemSchema v
      = validateSchemaStep (validateSchema 5) lineItemSchema v := rfl
  rw [h6]
  cases v with
  | obj flds =>
    simp only [wfKeys, Bool.and_eq_true, decide_eq_true_eq] at hw
    have hL : validateSchemaStep (validateSchema 5) lineItemSchema (.obj flds)
        = lineItemProps.all fun ks =>
            match List.lookup ks.1 flds with
            | some w => validateSchema 5 ks.2 w
            | none => true := by
      simp [validateSchemaStep, lineItemSchema, typeMatches]
      try rfl
    rw [hL, show lineItemOk (.obj flds)
      = flds.all (fun kv => !(decide (kv.1 ∈ itemStringFields)) || isStrB kv.2) from rfl]
    simp only [List.all_eq_true]
    constructor
    · intro hv kv hkv
      by_cases hks : kv.1 ∈ itemStringFields
      · have hent := itemStringFields_entry kv.1 hks
        have hlk := lookup_eq_of_mem_nodup flds kv hw.1 hkv
        have ht := hv (kv.1, strSchema) hent
        simp only [hlk] at ht
        have hvs : validateSchema 5 strSchema kv.2 = isStrB kv.2 := validateStr 4 kv.2
        rw [hvs] at ht
        simp [ht]
      · simp [hks]
    · intro hv ks hks
      have hks2 : ks.1 ∈ itemStringFields ∧ ks.2 = strSchema := by
        simp only [lineItemProps, List.mem_cons, List.not_mem_nil, or_false] at hks
        rcases hks with rfl|rfl|rfl|rfl|rfl|rfl|rfl|rfl|rfl|rfl|rfl|rfl <;>
          exact ⟨by simp [itemStringFields], rfl⟩
      cases hlk : List.lookup ks.1 flds with
      | none => rfl
      | some w =>
        have hmem := lookup_mem flds ks.1 w hlk
        have ht := hv (ks.1, w) hmem
        rw [hks2.2]
        show validateSchema 5 strSchema w = true
        rw [validateStr 4 w]
        rcases (Bool.or_eq_true _ _).mp ht with hnot | hstr
        · exact absurd hks2.1 (by simpa using hnot)
        · exact hstr
  | null => simp [validateSchemaStep, lineItemSchema, typeMatches, lineItemOk]
  | bool b => simp [validateSchemaStep, lineItemSchema, typeMatches, lineItemOk]
  | num s => simp [validateSchemaStep, lineItemSchema, typeMatches, lineItemOk]
  | str s => simp [validateSchemaStep, lineItemSchema, typeMatches, lineItemOk]
  | arr l => simp [validateSchemaStep, lineItemSchema, typeMatches, lineItemOk]

theorem validateLineArray_iff (v : Json) (hwv : wfKeys v = true) :
    (validateSchema 7 (.mk (some "array") [] (some lineItemSchema)) v = true
      ↔ lineItemsOk v = true) := by
  have h7 : validateSchema 7 (.mk (some "array") [] (some lineItemSchema)) v
      = validateSchemaStep (validateSchema 6) (.mk (some "array") [] (some lineItemSchema)) v := rfl
  rw [h7]
  cases v with
  | arr l =>
    simp only [wfKeys] at hwv
    have hL : validateSchemaStep (validateSchema 6) (.mk (some "array") [] (some lineItemSchema))
        (.arr l) = l.all fun w => validateSchema 6 lineItemSchema w := by
      simp [validateSchemaStep, typeMatches]
    rw [hL, show lineItemsOk (.arr l) = l.all lineItemOk from rfl]
    simp only [List.all_eq_true]
    constructor
    · intro ht item hitem
      exact (validateLineItem_iff item (wfKeysList_mem l item hwv hitem)).mp (ht item hitem)
    · intro ht item hitem
      exact (validateLineItem_iff item (wfKeysList_mem l item hwv hitem)).mpr (ht item hitem)
  | null => simp [validateSchemaStep, typeMatches, lineItemsOk]
  | bool b => simp [validateSchemaStep, typeMatches, lineItemsOk]
  | num s => simp [validateSchemaStep, typeMatches, lineItemsOk]
  | str s => simp [validateSchemaStep, typeMatches, lineItemsOk]
  | obj o => simp [validateSchemaStep, typeMatches, lineItemsOk]

theorem topProps_str_goal (k : String) (flds : List (String × Json))
    (hk : k ∈ stringFields)
    (hv : ∀ kv ∈ flds, topFieldOk kv.1 kv.2 = true) :
    (match List.lookup k flds with
      | some w => validateSchema 7 strSchema w
      | none => true) = true := by
  cases hlk : List.lookup k flds with
  | none => rfl
  | some w =>
    have hmem := lookup_mem flds k w hlk
    have ht : topFieldOk k w = true := hv (k, w) hmem
    rw [topFieldOk, if_pos hk] at ht
    show validateSchema 7 strSchema w = true
    have hvs : validateSchema 7 strSchema w = isStrB w := validateStr 6 w
    rw [hvs]
    exact ht

theorem topProps_line_goal (flds : List (String × Json))
    (hwf : wfKeysFields flds = true)
    (hv : ∀ kv ∈ flds, topFieldOk kv.1 kv.2 = true) :
    (match List.lookup "line_items" flds with
      | some w => validateSchema 7 (Schema.mk (some "array") [] (some lineItemSchema)) w
      | none => true) = true := by
  cases hlk : List.lookup "line_items" flds with
  | none => rfl
  | some w =>
    have hmem := lookup_mem flds "line_items" w hlk
    have ht : topFieldOk "line_items" w = true := hv ("line_items", w) hmem
    rw [topFieldOk, if_neg (by decide : ¬ ("line_items" ∈ stringFields)), if_pos rfl] at ht
    show validateSchema 7 (Schema.mk (some "array") [] (some lineItemSchema)) w = true
    have hwv : wfKeys w = true := wfKeysFields_mem flds ("line_items", w) hwf hmem
    exact (validateLineArray_iff w hwv).mpr ht

theorem schemaOK_obj_iff (flds : List (String × Json)) (hw : wfKeys (.obj flds) = true) :
    (schemaOK (.obj flds) = true ↔ ∀ kv ∈ flds, topFieldOk kv.1 kv.2 = true) := by
  simp only [wfKeys, Bool.and_eq_true, decide_eq_true_eq] at hw
  have hT : schemaOK (.obj flds) = topProps.all fun ks =>
      match List.lookup ks.1 flds with
      | some w => validateSchema 7 ks.2 w
      | none => true := by
    have h8 : schemaOK (.obj flds)
        = validateSchemaStep (validateSchema 7) SCHEMA (.obj flds) := rfl
    rw [h8]
    simp [validateSchemaStep, SCHEMA, typeMatches]
    try rfl
  rw [hT]
  simp only [List.all_eq_true]
  constructor
  · intro hv kv hkv
    obtain ⟨k1, v2⟩ := kv
    simp only []
    by_cases hs : k1 ∈ stringFields
    · have hent := stringFields_entry k1 hs
      have hlk := lookup_eq_of_mem_nodup flds (k1, v2) hw.1 hkv
      have ht := hv (k1, strSchema) hent
      simp only at hlk
      simp only [hlk] at ht
      have hvs : validateSchema 7 strSchema v2 = isStrB v2 := validateStr 6 v2
      rw [hvs] at ht
      rw [topFieldOk, if_pos hs]
      exact ht
    · by_cases hli : k1 = "line_items"
      · have hent : ("line_items", Schema.mk (some "array") [] (some lineItemSchema)) ∈ topProps := by
          simp [topProps]
        have hlk := lookup_eq_of_mem_nodup flds (k1, v2) hw.1 hkv
        simp only at hlk
        rw [hli] at hlk
        have ht := hv _ hent
        simp only [hlk] at ht
        have hwv : wfKeys v2 = true := wfKeysFields_mem flds (k1, v2) hw.2 hkv
        rw [topFieldOk, if_neg hs, if_pos hli]
        exact (validateLineArray_iff v2 hwv).mp ht
      · rw [topFieldOk, if_neg hs, if_neg hli]
  · intro hv ks hks
    simp only [topProps, List.mem_cons, List.not_mem_nil, or_false] at hks
    rcases hks with rfl|rfl|rfl|rfl|rfl|rfl|rfl|rfl|rfl|rfl|rfl|rfl|rfl|rfl|rfl <;>
    first
    | exact topProps_line_goal flds hw.2 hv
    | exact topProps_str_goal _ flds (by decide) hv

/-- C5: `validate_json_output` fails with `MalformedExtractionError`
exactly when the sanitized text does not parse as JSON, fails with
`SchemaViolationError` exactly when the parsed value violates `SCHEMA`,
and otherwise returns the parsed object; the schema requires no field —
the empty object validates — and, for any well-formed object, validating
is exactly the per-field type constraint on the listed fields that are
present (`topFieldOk`). -/
theorem c5_validate_errors_and_schema_shape :
    (∀ s : String,
      (validate_json_output s = .error .malformedExtraction ↔
        jsonLoadsL (sanitize s.toList) = none)
      ∧ (validate_json_output s = .error .schemaViolation ↔
        ∃ v, jsonLoadsL (sanitize s.toList) = some v ∧ schemaOK v = false)
      ∧ (∀ v, jsonLoadsL (sanitize s.toList) = some v → schemaOK v = true →
        validate_json_output s = .ok v))
    ∧ schemaOK (.obj []) = true
    ∧ (∀ flds, wfKeys (.obj flds) = true →
        (schemaOK (.obj flds) = true ↔ ∀ kv ∈ flds, topFieldOk kv.1 kv.2 = true)) := by
  refine ⟨?_, by decide, schemaOK_obj_iff⟩
  intro s
  cases hj : jsonLoadsL (sanitize s.toList) with
  | none =>
    have hj2 : jsonLoadsL (sanitize s.data) = none := hj
    refine ⟨by simp [validate_json_output, hj, hj2], by simp [validate_json_output, hj, hj2], ?_⟩
    intro v hv
    simp at hv
  | some v =>
    have hj2 : jsonLoadsL (sanitize s.data) = some v := hj
    by_cases hs : schemaOK v = true
    · refine ⟨by simp [validate_json_output, hj, hj2, hs], ?_, ?_⟩
      · simp only [validate_json_output, hj, hj2, hs, if_true]
        constructor
        · intro h; cases h
        · rintro ⟨w, hw, hw2⟩
          simp only [Option.some.injEq] at hw
          rw [← hw, hs] at hw2
          cases hw2
      · intro w hw _
        simp only [Option.some.injEq] at hw
        subst hw
        simp [validate_json_output, hj, hj2, hs]
    · refine ⟨by simp [validate_json_output, hj, hj2, hs], ?_, ?_⟩
      · simp only [validate_json_output, hj, hj2, hs, if_false]
        constructor
        · intro _
          exact ⟨v, rfl, by simpa using hs⟩
        · intro _
          rfl
      · intro w hw hw2
        simp only [Option.some.injEq] at hw
        subst hw
        exact absurd hw2 hs

/-- C5 witness: the empty JSON document validates and is returned, and
the per-field characterization applied to a concrete one-field object. -/
theorem c5_validate_errors_and_schema_shape_witness :
    validate_json_output "\x7b\x7d" = .ok (.obj [])
    ∧ (schemaOK (.obj [("order_id", .str "A1")]) = true
        ↔ ∀ kv ∈ [("order_id", Json.str "A1")], topFieldOk kv.1 kv.2 = true) :=
  ⟨(c5_validate_errors_and_schema_shape.1 "\x7b\x7d").2.2 (.obj []) (by decide) (by decide),
    c5_validate_errors_and_schema_shape.2.2 [("order_id", .str "A1")] (by decide)⟩

/-! ### Response validity and the error fallback (C6, C7) -/

theorem any_beq_eq_lookup_isSome : ∀ (flds : List (String × Json)) (k : String),
    (flds.any fun kv => kv.1 == k) = (List.lookup k flds).isSome
  | [], _ => rfl
  | (k', v) :: rest, k => by
    simp only [List.any_cons, List.lookup]
    by_cases h : k = k'
    · subst h; simp
    · have h1 : (k' == k) = false := by simpa using fun hh => h hh.symm
      have h2 : (k == k') = false := by simpa using h
      rw [h1, h2]
      simp [any_beq_eq_lookup_isSome rest k]

theorem allContainsFields_obj (flds : List (String × Json)) :
    ∀ ks, allContainsFields (.obj flds) ks = .ok (ks.all fun k => (List.lookup k flds).isSome)
  | [] => rfl
  | k :: ks => by
    simp only [allContainsFields, pyContains, any_beq_eq_lookup_isSome]
    cases h : (List.lookup k flds).isSome with
    | false => simp [List.all_cons, h]
    | true => simp [List.all_cons, h, allContainsFields_obj flds ks]

theorem evalTry_fallback (resp : String) (msg : String) (h : evalTry resp = .error msg) :
    evaluate_with_llm resp = evalErrorResult msg := by
  simp [evaluate_with_llm, h]

theorem evalTry_ok_valid (resp : String) (v : Json) (h : evalTry resp = .ok v) :
    jsonLoadsL (evalSanitize resp.toList) = some v ∧ validResponse v = true := by
  unfold evalTry at h
  cases hp : jsonLoadsL (evalSanitize resp.toList) with
  | none => rw [hp] at h; cases h
  | some w =>
    rw [hp] at h
    simp only [] at h
    cases w with
    | obj flds =>
      rw [allContainsFields_obj flds requiredFields] at h
      cases hall : requiredFields.all fun k => (List.lookup k flds).isSome with
      | false => rw [hall] at h; cases h
      | true =>
        rw [hall] at h
        simp only [] at h
        cases hl : List.lookup "accuracy_score" flds with
        | none =>
          rw [show pySubscript (Json.obj flds) "accuracy_score"
              = match List.lookup "accuracy_score" flds with
                | some u => .ok u | none => .error .keyError from rfl, hl] at h
          cases h
        | some s =>
          rw [show pySubscript (Json.obj flds) "accuracy_score"
              = match List.lookup "accuracy_score" flds with
                | some u => .ok u | none => .error .keyError from rfl, hl] at h
          simp only [] at h
          cases hn : isPyNumeric s with
          | false => rw [hn] at h; simp at h
          | true =>
            rw [hn] at h
            simp only [if_true, Except.ok.injEq] at h
            subst h
            exact ⟨rfl, by simp [validResponse, hall, hl, hn]⟩
    | null => simp [allContainsFields, requiredFields, pyContains] at h
    | bool b => simp [allContainsFields, requiredFields, pyContains] at h
    | num s => simp [allContainsFields, requiredFields, pyContains] at h
    | str s =>
      cases hac : allContainsFields (.str s) requiredFields with
      | error e => rw [hac] at h; cases h
      | ok b =>
        rw [hac] at h
        cases b with
        | false => simp at h
        | true => simp [pySubscript] at h
    | arr items =>
      cases hac : allContainsFields (.arr items) requiredFields with
      | error e => rw [hac] at h; cases h
      | ok b =>
        rw [hac] at h
        cases b with
        | false => simp at h
        | true => simp [pySubscript] at h

theorem evalTry_valid_ok (resp : String) (v : Json)
    (hp : jsonLoadsL (evalSanitize resp.toList) = some v) (hv : validResponse v = true) :
    evalTry resp = .ok v := by
  cases v with
  | obj flds =>
    simp only [validResponse, Bool.and_eq_true] at hv
    obtain ⟨hall, hsc⟩ := hv
    cases hl : List.lookup "accuracy_score" flds with
    | none => rw [hl] at hsc; cases hsc
    | some s =>
      rw [hl] at hsc
      simp only [] at hsc
      unfold evalTry
      rw [hp]
      simp only []
      rw [allContainsFields_obj flds requiredFields, hall]
      simp only []
      rw [show pySubscript (Json.obj flds) "accuracy_score"
          = match List.lookup "accuracy_score" flds with
            | some u => .ok u | none => .error .keyError from rfl, hl]
      simp [hsc]
  | null => cases hv
  | bool b => cases hv
  | num s => cases hv
  | str s => cases hv
  | arr items => cases hv

theorem allContainsFields_ok_shape (v : Json)
    (hok : ∀ k, ∃ bb, pyContains v k = .ok bb) :
    ∀ ks, ∃ b, allContainsFields v ks = .ok b
  | [] => ⟨true, rfl⟩
  | k :: ks => by
    obtain ⟨bb, hbb⟩ := hok k
    cases bb with
    | false => exact ⟨false, by simp [allContainsFields, hbb]⟩
    | true =>
      obtain ⟨b, hb⟩ := allContainsFields_ok_shape v hok ks
      exact ⟨b, by simp [allContainsFields, hbb, hb]⟩

theorem evalTry_invalid_err (resp : String) (v : Json)
    (hp : jsonLoadsL (evalSanitize resp.toList) = some v) (hv : validResponse v = false) :
    ∃ msg, evalTry resp = .error msg := by
  have hp2 : jsonLoadsL (evalSanitize resp.data) = some v := hp
  cases v with
  | obj flds =>
    unfold evalTry
    rw [hp]
    simp only []
    rw [allContainsFields_obj flds requiredFields]
    cases hall : requiredFields.all fun k => (List.lookup k flds).isSome with
    | false => exact ⟨"Missing required fields in LLM response", by simp⟩
    | true =>
      have hin : ("accuracy_score" ∈ requiredFields) := by decide
      have hs : (List.lookup "accuracy_score" flds).isSome = true := by
        have := List.all_eq_true.mp hall "accuracy_score" hin
        simpa using this
      cases hl : List.lookup "accuracy_score" flds with
      | none => rw [hl] at hs; cases hs
      | some s =>
        have hn : isPyNumeric s = false := by
          simp only [validResponse, hall, hl, Bool.true_and] at hv
          exact hv
        refine ⟨"Invalid accuracy score format", ?_⟩
        simp only []
        rw [show pySubscript (Json.obj flds) "accuracy_score"
            = match List.lookup "accuracy_score" flds with
              | some u => .ok u | none => .error .keyError from rfl, hl]
        simp [hn]
  | null =>
    exact ⟨"argument is not iterable",
      by simp [evalTry, hp, hp2, allContainsFields, requiredFields, pyContains]⟩
  | bool b =>
    exact ⟨"argument is not iterable",
      by simp [evalTry, hp, hp2, allContainsFields, requiredFields, pyContains]⟩
  | num s =>
    exact ⟨"argument is not iterable",
      by simp [evalTry, hp, hp2, allContainsFields, requiredFields, pyContains]⟩
  | str s =>
    obtain ⟨b, hb⟩ := allContainsFields_ok_shape (.str s)
      (fun k => ⟨decide (k.toList <:+: s.toList), rfl⟩) requiredFields
    cases b with
    | false =>
      exact ⟨"Missing required fields in LLM response", by simp [evalTry, hp, hp2, hb]⟩
    | true =>
      exact ⟨"evaluation is not subscriptable", by simp [evalTry, hp, hp2, hb, pySubscript]⟩
  | arr items =>
    obtain ⟨b, hb⟩ := allContainsFields_ok_shape (.arr items)
      (fun k => ⟨items.any fun x => jsonBEq x (.str k), rfl⟩) requiredFields
    cases b with
    | false =>
      exact ⟨"Missing required fields in LLM response", by simp [evalTry, hp, hp2, hb]⟩
    | true =>
      exact ⟨"evaluation is not subscriptable", by simp [evalTry, hp, hp2, hb, pySubscript]⟩

/-- C6: `evaluate_with_llm` treats a parsed response as invalid exactly when
one of the five required top-level keys is absent or `accuracy_score` is not
numeric (`validResponse`), and on every failure — unparseable JSON, an invalid
response, or any raise inside the try block — it returns the standardized
zero-score error result instead of propagating the exception. -/
theorem c6_validity_and_fallback (resp : String) :
    (jsonLoadsL (evalSanitize resp.toList) = none →
      evaluate_with_llm resp = evalErrorResult "Failed to parse LLM response")
    ∧ (∀ v, jsonLoadsL (evalSanitize resp.toList) = some v →
        ((validResponse v = true → evaluate_with_llm resp = v)
         ∧ (validResponse v = false →
            ∃ msg, evalTry resp = .error msg
              ∧ evaluate_with_llm resp = evalErrorResult msg)))
    ∧ (∀ msg, evalTry resp = .error msg →
        evaluate_with_llm resp = evalErrorResult msg)
    ∧ (∀ v, evalTry resp = .ok v → validResponse v = true) := by
  refine ⟨?_, ?_, fun msg h => evalTry_fallback resp msg h,
    fun v h => (evalTry_ok_valid resp v h).2⟩
  · intro hp
    have hp2 : jsonLoadsL (evalSanitize resp.data) = none := hp
    have h : evalTry resp = .error "Failed to parse LLM response" := by
      simp [evalTry, hp, hp2]
    exact evalTry_fallback resp _ h
  · intro v hp
    constructor
    · intro hv
      have h := evalTry_valid_ok resp v hp hv
      simp [evaluate_with_llm, h]
    · intro hv
      obtain ⟨msg, hmsg⟩ := evalTry_invalid_err resp v hp hv
      exact ⟨msg, hmsg, evalTry_fallback resp msg hmsg⟩

set_option maxRecDepth 10000 in
/-- C6 witness: a well-formed evaluation response is accepted verbatim, and
the scenario response missing `accuracy_score` yields the standardized
zero-score error result. -/
theorem c6_validity_and_fallback_witness :
    evaluate_with_llm "\x7b\"accuracy_score\": 95, \"field_analysis\": \"a\", \"quality_issues\": \"b\", \"edge_case_handling\": \"c\", \"improvement_suggestions\": \"d\"\x7d"
      = Json.obj [("accuracy_score", .num "95"), ("field_analysis", .str "a"),
          ("quality_issues", .str "b"), ("edge_case_handling", .str "c"),
          ("improvement_suggestions", .str "d")]
    ∧ evaluate_with_llm "\x7b\"field_analysis\": \"a\", \"quality_issues\": \"b\", \"edge_case_handling\": \"c\", \"improvement_suggestions\": \"d\"\x7d"
      = evalErrorResult "Missing required fields in LLM response" :=
  ⟨((c6_validity_and_fallback "\x7b\"accuracy_score\": 95, \"field_analysis\": \"a\", \"quality_issues\": \"b\", \"edge_case_handling\": \"c\", \"improvement_suggestions\": \"d\"\x7d").2.1
      (Json.obj [("accuracy_score", .num "95"), ("field_analysis", .str "a"),
        ("quality_issues", .str "b"), ("edge_case_handling", .str "c"),
        ("improvement_suggestions", .str "d")]) (by decide)).1 (by decide),
   (c6_validity_and_fallback "\x7b\"field_analysis\": \"a\", \"quality_issues\": \"b\", \"edge_case_handling\": \"c\", \"improvement_suggestions\": \"d\"\x7d").2.2.1 "Missing required fields in LLM response" (by decide)⟩

theorem length_le_length_flatMap {α β : Type} (g : α → List β) (h : ∀ x, 1 ≤ (g x).length) :
    ∀ l : List α, l.length ≤ (l.flatMap g).length
  | [] => le_refl 0
  | x :: r => by
    rw [List.flatMap_cons, List.length_append, List.length_cons]
    have h1 := length_le_length_flatMap g h r
    have h2 := h x
    omega

theorem fileEntries_length (f : String × Except String String) :
    1 ≤ (fileEntries f).length ∧ (fileEntries f).length ≤ 2 := by
  obtain ⟨name, out⟩ := f
  cases out with
  | error e => exact ⟨by simp [fileEntries], by simp [fileEntries]⟩
  | ok resp =>
    simp only [fileEntries]
    split <;> simp

theorem fileEntries_names (f : String × Except String String) :
    ∀ p ∈ fileEntries f, p.1 = f.1 := by
  obtain ⟨name, out⟩ := f
  intro p hp
  cases out with
  | error e =>
    simp only [fileEntries, List.mem_singleton] at hp
    rw [hp]
  | ok resp =>
    simp only [fileEntries] at hp
    split at hp
    · simp only [List.mem_singleton] at hp
      rw [hp]
    · simp only [List.mem_cons, List.not_mem_nil, or_false] at hp
      rcases hp with h | h <;> rw [h]

/-- C7 (amended): a per-file error is caught locally and the placeholder
appended, but the report has exactly one entry per file only when no error
strikes after the append: every file contributes one or two entries carrying
its name (so the report is at least as long as the input list); a file whose
loading raised contributes the placeholder alone; a file whose appended
evaluation survives post-processing contributes it alone; and a file whose
post-processing raises after the append contributes the evaluation and then
the placeholder. -/
theorem c7_report_entries_per_file (files : List (String × Except String String)) :
    compare_results files = files.flatMap fileEntries
    ∧ files.length ≤ (compare_results files).length
    ∧ (∀ f : String × Except String String,
        1 ≤ (fileEntries f).length ∧ (fileEntries f).length ≤ 2
        ∧ ∀ p ∈ fileEntries f, p.1 = f.1)
    ∧ (∀ name e : String, fileEntries (name, .error e) = [(name, processingErrorResult e)])
    ∧ (∀ name resp : String, postProcess (evaluate_with_llm resp) = .ok () →
        fileEntries (name, .ok resp) = [(name, evaluate_with_llm resp)])
    ∧ (∀ (name resp : String) (err : PyErr),
        postProcess (evaluate_with_llm resp) = .error err →
        fileEntries (name, .ok resp)
          = [(name, evaluate_with_llm resp), (name, processingErrorResult (pyErrStr err))]) := by
  refine ⟨rfl, ?_, fun f => ⟨(fileEntries_length f).1, (fileEntries_length f).2,
      fileEntries_names f⟩, fun name e => rfl, ?_, ?_⟩
  · exact length_le_length_flatMap fileEntries (fun f => (fileEntries_length f).1) files
  · intro name resp h
    simp [fileEntries, h]
  · intro name resp err h
    simp [fileEntries, h]

set_option maxRecDepth 40000 in
/-- C7 counterexample: a response accepted verbatim whose `field_analysis` is
a string parses and is appended, then line 414's
`evaluation['field_analysis']['incorrect_fields']` raises `TypeError`; the
per-file handler appends the placeholder as well, so this one-file run
produces a report with two entries, not one. -/
theorem c7_counterexample_post_append_error :
    (compare_results [("a.json", .ok "\x7b\"accuracy_score\": 95, \"field_analysis\": \"a\", \"quality_issues\": \"b\", \"edge_case_handling\": \"c\", \"improvement_suggestions\": \"d\"\x7d")]).length = 2
    ∧ compare_results [("a.json", .ok "\x7b\"accuracy_score\": 95, \"field_analysis\": \"a\", \"quality_issues\": \"b\", \"edge_case_handling\": \"c\", \"improvement_suggestions\": \"d\"\x7d")]
        = [("a.json", Json.obj [("accuracy_score", .num "95"), ("field_analysis", .str "a"),
            ("quality_issues", .str "b"), ("edge_case_handling", .str "c"),
            ("improvement_suggestions", .str "d")]),
           ("a.json", processingErrorResult "TypeError")] :=
  ⟨by decide, by decide⟩

set_option maxRecDepth 40000 in
/-- C7 witness: a file whose loading raised gets the placeholder alone, an
unparseable response gets the standardized zero-score evaluation alone (its
post-processing runs through), and a two-file batch reports at least two
entries. -/
theorem c7_report_entries_per_file_witness :
    fileEntries ("a.html", .error "boom") = [("a.html", processingErrorResult "boom")]
    ∧ fileEntries ("b.html", .ok "x")
        = [("b.html", evalErrorResult "Failed to parse LLM response")]
    ∧ 2 ≤ (compare_results [("a.html", .error "boom"), ("b.html", .ok "x")]).length :=
  ⟨(c7_report_entries_per_file []).2.2.2.1 "a.html" "boom",
   by
     have h := (c7_report_entries_per_file []).2.2.2.2.1 "b.html" "x" (by decide)
     rw [h]
     decide,
   le_trans (by decide)
     (c7_report_entries_per_file [("a.html", .error "boom"), ("b.html", .ok "x")]).2.1⟩

/-! ### HTML cleaning (C9) -/

mutual

theorem textOf_removeSS_node : ∀ n : HNode,
    (match removeSSNode n with | some m => textOfNode m | none => "") = specTextNode n
  | .text s => rfl
  | .elem tag kids => by
    cases hss : isSSTag tag with
    | true => simp [removeSSNode, specTextNode, hss]
    | false =>
      simp only [removeSSNode, specTextNode, hss, Bool.false_eq_true, if_false]
      exact textOf_removeSS_list kids

theorem textOf_removeSS_list : ∀ l : List HNode,
    textOf (removeSS l) = specText l
  | [] => rfl
  | n :: rest => by
    have hn := textOf_removeSS_node n
    cases h : removeSSNode n with
    | none =>
      rw [h] at hn
      simp only [] at hn
      simp only [removeSS, h, specText, ← hn]
      rw [textOf_removeSS_list rest]
      simp
    | some m =>
      rw [h] at hn
      simp only [] at hn
      simp only [removeSS, h, specText, textOf, hn]
      rw [textOf_removeSS_list rest]

end

mutual

theorem noSS_removeSS_node : ∀ (n : HNode) (m : HNode),
    removeSSNode n = some m → noSSNode m = true
  | .text s, m => by
    intro h
    simp only [removeSSNode, Option.some.injEq] at h
    subst h
    rfl
  | .elem tag kids, m => by
    intro h
    cases hss : isSSTag tag with
    | true => simp [removeSSNode, hss] at h
    | false =>
      simp only [removeSSNode, hss, Bool.false_eq_true, if_false, Option.some.injEq] at h
      subst h
      simp only [noSSNode, hss, Bool.not_false, Bool.true_and]
      exact noSS_removeSS_list kids

theorem noSS_removeSS_list : ∀ l : List HNode,
    noSSList (removeSS l) = true
  | [] => rfl
  | n :: rest => by
    cases h : removeSSNode n with
    | none =>
      simp only [removeSS, h]
      exact noSS_removeSS_list rest
    | some m =>
      simp only [removeSS, h, noSSList, Bool.and_eq_true]
      exact ⟨noSS_removeSS_node n m h, noSS_removeSS_list rest⟩

end

/-- C9: `clean_html` removes every `script`/`style` subtree before text
extraction: the pruned tree holds no `script`/`style` element, and the
extracted text is exactly the text of the nodes that had no `script`/`style`
ancestor — the literal contents of those blocks never reach the output.  On
the test suite's shape of input, the block contents are gone and the body
text survives. -/
theorem c9_clean_html_removes_script_style :
    (∀ html : String,
      clean_html html = specText (parseHtml html)
      ∧ noSSList (removeSS (parseHtml html)) = true)
    ∧ clean_html "<html><head><style>body red</style><script>alert(1)</script></head><body><div>Test content</div></body></html>"
        = "Test content" := by
  refine ⟨fun html => ⟨?_, noSS_removeSS_list (parseHtml html)⟩, by decide⟩
  rw [clean_html, textOf_removeSS_list]

/-! ### The structural-diff strategy (C8) -/

theorem jsonBEq_refl (v : Json) : jsonBEq v v = true := (jsonBEq_iff v v).mpr rfl

theorem jsonSize_pos : ∀ v : Json, 1 ≤ jsonSize v
  | .null => le_refl 1
  | .bool _ => le_refl 1
  | .num _ => le_refl 1
  | .str _ => le_refl 1
  | .arr l => by rw [show jsonSize (.arr l) = 1 + jsonSizeList l from rfl]; omega
  | .obj flds => by rw [show jsonSize (.obj flds) = 1 + jsonSizeFields flds from rfl]; omega

theorem jsonSize_le_of_mem : ∀ (l : List Json) (x : Json), x ∈ l → jsonSize x ≤ jsonSizeList l
  | y :: rest, x, hm => by
    rw [show jsonSizeList (y :: rest) = jsonSize y + jsonSizeList rest from rfl]
    rcases List.mem_cons.mp hm with heq | hmem
    · subst heq; omega
    · have := jsonSize_le_of_mem rest x hmem; omega

theorem jsonSize_le_of_memF : ∀ (flds : List (String × Json)) (kv : String × Json),
    kv ∈ flds → jsonSize kv.2 ≤ jsonSizeFields flds
  | (k, v) :: rest, kv, hm => by
    rw [show jsonSizeFields ((k, v) :: rest) = jsonSize v + jsonSizeFields rest from rfl]
    rcases List.mem_cons.mp hm with heq | hmem
    · subst heq; exact Nat.le_add_right (jsonSize v) (jsonSizeFields rest)
    · have := jsonSize_le_of_memF rest kv hmem; omega

theorem canonF_succ_arr (f : Nat) (l : List Json) :
    canonF (f + 1) (.arr l)
      = .arr (sortBy (fun a b => strLeB (jsonRepr a) (jsonRepr b)) (l.map (canonF f))) := rfl

theorem canonF_succ_obj (f : Nat) (flds : List (String × Json)) :
    canonF (f + 1) (.obj flds)
      = .obj (sortBy (fun a b => strLeB a.1 b.1) (flds.map fun kv => (kv.1, canonF f kv.2))) := rfl

theorem canonF_scalar : ∀ (f : Nat) (v : Json), isContainer v = false → canonF f v = v
  | 0, _, _ => rfl
  | _ + 1, .null, _ => rfl
  | _ + 1, .bool _, _ => rfl
  | _ + 1, .num _, _ => rfl
  | _ + 1, .str _, _ => rfl

theorem canon_scalar (v : Json) (h : isContainer v = false) : canon v = v :=
  canonF_scalar _ v h

theorem canonF_ge (fuel : Nat) : ∀ (v : Json), jsonSize v ≤ fuel → canonF fuel v = canon v := by
  induction fuel using Nat.strong_induction_on with
  | _ fuel ih =>
    intro v hle
    cases v with
    | null => rw [canonF_scalar fuel .null rfl, canon_scalar .null rfl]
    | bool b => rw [canonF_scalar fuel (.bool b) rfl, canon_scalar (.bool b) rfl]
    | num s => rw [canonF_scalar fuel (.num s) rfl, canon_scalar (.num s) rfl]
    | str s => rw [canonF_scalar fuel (.str s) rfl, canon_scalar (.str s) rfl]
    | arr l =>
      have hsz : jsonSize (.arr l) = 1 + jsonSizeList l := rfl
      rw [hsz] at hle
      obtain ⟨f, rfl⟩ : ∃ f, fuel = f + 1 := ⟨fuel - 1, by omega⟩
      rw [canon, hsz, Nat.add_comm 1 (jsonSizeList l), canonF_succ_arr, canonF_succ_arr]
      have hmap : l.map (canonF f) = l.map (canonF (jsonSizeList l)) := by
        refine List.map_congr_left ?_
        intro x hx
        have h1 : jsonSize x ≤ jsonSizeList l := jsonSize_le_of_mem l x hx
        rw [ih f (by omega) x (by omega), ih (jsonSizeList l) (by omega) x h1]
      rw [hmap]
    | obj flds =>
      have hsz : jsonSize (.obj flds) = 1 + jsonSizeFields flds := rfl
      rw [hsz] at hle
      obtain ⟨f, rfl⟩ : ∃ f, fuel = f + 1 := ⟨fuel - 1, by omega⟩
      rw [canon, hsz, Nat.add_comm 1 (jsonSizeFields flds), canonF_succ_obj, canonF_succ_obj]
      have hmap : (flds.map fun kv => (kv.1, canonF f kv.2))
          = flds.map fun kv => (kv.1, canonF (jsonSizeFields flds) kv.2) := by
        refine List.map_congr_left ?_
        intro kv hkv
        have h1 : jsonSize kv.2 ≤ jsonSizeFields flds := jsonSize_le_of_memF flds kv hkv
        rw [ih f (by omega) kv.2 (by omega), ih (jsonSizeFields flds) (by omega) kv.2 h1]
      rw [hmap]

theorem canon_arr (l : List Json) :
    canon (.arr l)
      = .arr (sortBy (fun a b => strLeB (jsonRepr a) (jsonRepr b)) (l.map canon)) := by
  rw [canon, show jsonSize (.arr l) = 1 + jsonSizeList l from rfl,
    Nat.add_comm 1 (jsonSizeList l), canonF_succ_arr]
  have hmap : l.map (canonF (jsonSizeList l)) = l.map canon := by
    refine List.map_congr_left ?_
    intro x hx
    exact canonF_ge (jsonSizeList l) x (jsonSize_le_of_mem l x hx)
  rw [hmap]

theorem canon_obj (flds : List (String × Json)) :
    canon (.obj flds)
      = .obj (sortBy (fun a b => strLeB a.1 b.1) (flds.map fun kv => (kv.1, canon kv.2))) := by
  rw [canon, show jsonSize (.obj flds) = 1 + jsonSizeFields flds from rfl,
    Nat.add_comm 1 (jsonSizeFields flds), canonF_succ_obj]
  have hmap : (flds.map fun kv => (kv.1, canonF (jsonSizeFields flds) kv.2))
      = flds.map fun kv => (kv.1, canon kv.2) := by
    refine List.map_congr_left ?_
    intro kv hkv
    rw [canonF_ge (jsonSizeFields flds) kv.2 (jsonSize_le_of_memF flds kv hkv)]
  rw [hmap]

theorem insertBy_perm {α : Type} (le : α → α → Bool) (a : α) :
    ∀ l : List α, List.Perm (insertBy le a l) (a :: l)
  | [] => List.Perm.refl _
  | b :: rest => by
    rw [insertBy]
    by_cases h : le a b = true
    · rw [if_pos h]
    · rw [if_neg h]
      exact ((insertBy_perm le a rest).cons b).trans (List.Perm.swap a b rest)

theorem sortBy_perm {α : Type} (le : α → α → Bool) :
    ∀ l : List α, List.Perm (sortBy le l) l
  | [] => List.Perm.refl _
  | a :: rest =>
    (insertBy_perm le a (sortBy le rest)).trans ((sortBy_perm le rest).cons a)

theorem deepDiffF_succ_obj (f : Nat) (e a : List (String × Json)) :
    deepDiffF (f + 1) (.obj e) (.obj a)
      = (e.foldr (fun kv acc =>
          (match List.lookup kv.1 a with
            | some w => deepDiffF f kv.2 w
            | none => ["removed: " ++ kv.1]) ++ acc) [])
        ++ extraKeys e a := rfl

theorem deepDiffF_succ_arr (f : Nat) (x y : List Json) :
    deepDiffF (f + 1) (.arr x) (.arr y)
      = if jsonBEq (canon (.arr x)) (canon (.arr y)) then [] else ["array changed"] := rfl

theorem foldr_app_of_nil {α : Type} (g : α → List String) (init : List String) :
    ∀ l : List α, (∀ x ∈ l, g x = []) →
      l.foldr (fun x acc => g x ++ acc) init = init
  | [], _ => rfl
  | x :: rest, h => by
    rw [List.foldr_cons, h x (List.mem_cons_self x rest),
      foldr_app_of_nil g init rest fun y hy => h y (List.mem_cons_of_mem x hy)]
    rfl

theorem value_unique_of_nodup (flds : List (String × Json)) (k : String) (x y : Json)
    (hnd : (flds.map Prod.fst).Nodup) (hx : (k, x) ∈ flds) (hy : (k, y) ∈ flds) : x = y := by
  have h1 := lookup_eq_of_mem_nodup flds (k, x) hnd hx
  have h2 := lookup_eq_of_mem_nodup flds (k, y) hnd hy
  rw [h1] at h2
  exact (Option.some.injEq x y).mp h2

theorem canonEq_deepDiffF_nil (fuel : Nat) :
    ∀ (e a : Json), jsonSize e ≤ fuel → wfKeys e = true → wfKeys a = true →
      canon e = canon a → deepDiffF fuel e a = [] := by
  induction fuel using Nat.strong_induction_on with
  | _ fuel ih =>
    intro e a hle hwe hwa hc
    obtain ⟨f, rfl⟩ : ∃ f, fuel = f + 1 := ⟨fuel - 1, by have := jsonSize_pos e; omega⟩
    cases e with
    | obj ef =>
      cases a with
      | null => rw [canon_obj, canon_scalar .null rfl] at hc; cases hc
      | bool b => rw [canon_obj, canon_scalar (.bool b) rfl] at hc; cases hc
      | num s => rw [canon_obj, canon_scalar (.num s) rfl] at hc; cases hc
      | str s => rw [canon_obj, canon_scalar (.str s) rfl] at hc; cases hc
      | arr y => rw [canon_obj, canon_arr] at hc; cases hc
      | obj af =>
        rw [canon_obj, canon_obj, Json.obj.injEq] at hc
        have hperm : List.Perm (ef.map fun kv => (kv.1, canon kv.2))
            (af.map fun kv => (kv.1, canon kv.2)) := by
          refine ((sortBy_perm (fun a b => strLeB a.1 b.1) _).symm.trans ?_).trans
            (sortBy_perm (fun a b => strLeB a.1 b.1) _)
          rw [hc]
        simp only [wfKeys, Bool.and_eq_true, decide_eq_true_eq] at hwe hwa
        rw [deepDiffF_succ_obj]
        have hsz : jsonSize (Json.obj ef) = 1 + jsonSizeFields ef := rfl
        rw [hsz] at hle
        have hfold : (ef.foldr (fun kv acc =>
            (match List.lookup kv.1 af with
              | some w => deepDiffF f kv.2 w
              | none => ["removed: " ++ kv.1]) ++ acc) []) = [] := by
          refine foldr_app_of_nil _ [] ef ?_
          intro kv hkv
          have hmem : (kv.1, canon kv.2) ∈ af.map fun kv => (kv.1, canon kv.2) := by
            refine hperm.mem_iff.mp ?_
            exact List.mem_map.mpr ⟨kv, hkv, rfl⟩
          obtain ⟨kw, hkw, hkweq⟩ := List.mem_map.mp hmem
          obtain ⟨hk1, hk2⟩ := Prod.mk.inj hkweq
          have hlook : List.lookup kv.1 af = some kw.2 := by
            have := lookup_eq_of_mem_nodup af (kv.1, kw.2) hwa.1 (by rw [← hk1]; exact hkw)
            exact this
          rw [hlook]
          exact ih f (by omega) kv.2 kw.2
            (by have := jsonSize_le_of_memF ef kv hkv; omega)
            (wfKeysFields_mem ef kv hwe.2 hkv)
            (wfKeysFields_mem af (kv.1, kw.2) hwa.2 (by rw [← hk1]; exact hkw))
            hk2.symm
        have hextra : extraKeys ef af = [] := by
          rw [extraKeys, List.filterMap_eq_nil_iff]
          intro kw hkw
          have hmem : (kw.1, canon kw.2) ∈ ef.map fun kv => (kv.1, canon kv.2) := by
            refine hperm.mem_iff.mpr ?_
            exact List.mem_map.mpr ⟨kw, hkw, rfl⟩
          obtain ⟨ku, hku, hkueq⟩ := List.mem_map.mp hmem
          obtain ⟨hk1, hk2x⟩ := Prod.mk.inj hkueq
          have hlook : List.lookup kw.1 ef = some ku.2 :=
            lookup_eq_of_mem_nodup ef (kw.1, ku.2) hwe.1 (by rw [← hk1]; exact hku)
          rw [hlook]
          rfl
        rw [hfold, hextra]
        rfl
    | arr x =>
      cases a with
      | null => rw [canon_arr, canon_scalar .null rfl] at hc; cases hc
      | bool b => rw [canon_arr, canon_scalar (.bool b) rfl] at hc; cases hc
      | num s => rw [canon_arr, canon_scalar (.num s) rfl] at hc; cases hc
      | str s => rw [canon_arr, canon_scalar (.str s) rfl] at hc; cases hc
      | obj af => rw [canon_arr, canon_obj] at hc; cases hc
      | arr y =>
        rw [deepDiffF_succ_arr, hc, if_pos (jsonBEq_refl (canon (.arr y)))]
    | null =>
      cases a with
      | null => rfl
      | bool b => rw [canon_scalar .null rfl, canon_scalar (.bool b) rfl] at hc; cases hc
      | num s => rw [canon_scalar .null rfl, canon_scalar (.num s) rfl] at hc; cases hc
      | str s => rw [canon_scalar .null rfl, canon_scalar (.str s) rfl] at hc; cases hc
      | arr y => rw [canon_scalar .null rfl, canon_arr] at hc; cases hc
      | obj af => rw [canon_scalar .null rfl, canon_obj] at hc; cases hc
    | bool b =>
      have hca : canon a = .bool b := by rw [← hc, canon_scalar (.bool b) rfl]
      cases a with
      | bool b2 =>
        rw [canon_scalar (.bool b2) rfl] at hca
        have hb : b2 = b := Json.bool.inj hca
        subst hb
        rw [show deepDiffF (f + 1) (.bool b2) (.bool b2)
          = (if jsonBEq (Json.bool b2) (.bool b2) then [] else ["value changed"]) from rfl,
          if_pos (jsonBEq_refl (.bool b2))]
      | null => rw [canon_scalar .null rfl] at hca; cases hca
      | num s => rw [canon_scalar (.num s) rfl] at hca; cases hca
      | str s => rw [canon_scalar (.str s) rfl] at hca; cases hca
      | arr y => rw [canon_arr] at hca; cases hca
      | obj af => rw [canon_obj] at hca; cases hca
    | num n =>
      have hca : canon a = .num n := by rw [← hc, canon_scalar (.num n) rfl]
      cases a with
      | num n2 =>
        rw [canon_scalar (.num n2) rfl] at hca
        have hb : n2 = n := Json.num.inj hca
        subst hb
        rw [show deepDiffF (f + 1) (.num n2) (.num n2)
          = (if jsonBEq (Json.num n2) (.num n2) then [] else ["value changed"]) from rfl,
          if_pos (jsonBEq_refl (.num n2))]
      | null => rw [canon_scalar .null rfl] at hca; cases hca
      | bool b => rw [canon_scalar (.bool b) rfl] at hca; cases hca
      | str s => rw [canon_scalar (.str s) rfl] at hca; cases hca
      | arr y => rw [canon_arr] at hca; cases hca
      | obj af => rw [canon_obj] at hca; cases hca
    | str s =>
      have hca : canon a = .str s := by rw [← hc, canon_scalar (.str s) rfl]
      cases a with
      | str s2 =>
        rw [canon_scalar (.str s2) rfl] at hca
        have hb : s2 = s := Json.str.inj hca
        subst hb
        rw [show deepDiffF (f + 1) (.str s2) (.str s2)
          = (if jsonBEq (Json.str s2) (.str s2) then [] else ["value changed"]) from rfl,
          if_pos (jsonBEq_refl (.str s2))]
      | null => rw [canon_scalar .null rfl] at hca; cases hca
      | bool b => rw [canon_scalar (.bool b) rfl] at hca; cases hca
      | num n => rw [canon_scalar (.num n) rfl] at hca; cases hca
      | arr y => rw [canon_arr] at hca; cases hca
      | obj af => rw [canon_obj] at hca; cases hca

theorem lookup_isSome_of_mem_keys : ∀ (l : List (String × Json)) (k : String),
    k ∈ l.map Prod.fst → (List.lookup k l).isSome = true
  | (k', v) :: rest, k, hm => by
    simp only [List.map_cons, List.mem_cons] at hm
    rw [List.lookup]
    by_cases h : (k == k') = true
    · rw [h]; rfl
    · rw [Bool.not_eq_true] at h
      rw [h]
      refine lookup_isSome_of_mem_keys rest k ?_
      rcases hm with heq | hmem
      · exact absurd (by simpa using heq) (by simpa using h)
      · exact hmem

theorem deepDiffF_scalar_left (f : Nat) (x y : Json) (hx : isContainer x = false) :
    deepDiffF (f + 1) x y = if jsonBEq x y then [] else ["value changed"] := by
  cases x with
  | arr l => simp [isContainer] at hx
  | obj flds => simp [isContainer] at hx
  | null => cases y <;> rfl
  | bool b => cases y <;> rfl
  | num n => cases y <;> rfl
  | str s => cases y <;> rfl

/-- C8: the structural-diff strategy, modelled from the spec: the deep
difference is order-insensitive — two well-keyed values equal modulo list
ordering (`permEq`) produce no differences and the file is classified as an
exact match — and two objects that differ in exactly one scalar field produce
exactly one difference and the has-differences classification. -/
theorem c8_structural_diff_strategy :
    (∀ e a : Json, wfKeys e = true → wfKeys a = true → permEq e a = true →
      deepDiff e a = [] ∧ diffClassify e a = "Exact Match")
    ∧ (∀ (pre post : List (String × Json)) (k : String) (x y : Json),
        wfKeys (.obj (pre ++ (k, x) :: post)) = true →
        isContainer x = false → isContainer y = false →
        jsonBEq x y = false →
        deepDiff (.obj (pre ++ (k, x) :: post)) (.obj (pre ++ (k, y) :: post))
            = ["value changed"]
          ∧ diffClassify (.obj (pre ++ (k, x) :: post)) (.obj (pre ++ (k, y) :: post))
            = "Has Differences") := by
  constructor
  · intro e a hwe hwa hpe
    have hc : canon e = canon a := (jsonBEq_iff (canon e) (canon a)).mp hpe
    have hd : deepDiff e a = [] := by
      rw [deepDiff]
      exact canonEq_deepDiffF_nil (jsonSize e) e a (le_refl _) hwe hwa hc
    refine ⟨hd, ?_⟩
    rw [diffClassify, hd]
    rfl
  · intro pre post k x y hw hx hy hne
    simp only [wfKeys, Bool.and_eq_true, decide_eq_true_eq] at hw
    obtain ⟨hnd, hwf⟩ := hw
    have hkeys : ((pre ++ (k, y) :: post).map Prod.fst)
        = ((pre ++ (k, x) :: post).map Prod.fst) := by
      simp [List.map_append]
    have hS1 : jsonSize (Json.obj (pre ++ (k, x) :: post))
        = jsonSizeFields (pre ++ (k, x) :: post) + 1 := by
      have : jsonSize (Json.obj (pre ++ (k, x) :: post))
          = 1 + jsonSizeFields (pre ++ (k, x) :: post) := rfl
      omega
    have hd : deepDiff (.obj (pre ++ (k, x) :: post)) (.obj (pre ++ (k, y) :: post))
        = ["value changed"] := by
      rw [deepDiff, hS1, deepDiffF_succ_obj]
      have harmnil : ∀ kv ∈ pre ++ (k, x) :: post, kv ∈ pre ∨ kv ∈ post →
          (match List.lookup kv.1 (pre ++ (k, y) :: post) with
            | some w => deepDiffF (jsonSizeFields (pre ++ (k, x) :: post)) kv.2 w
            | none => ["removed: " ++ kv.1]) = [] := by
        intro kv hkv hside
        have hmem2 : (kv.1, kv.2) ∈ pre ++ (k, y) :: post := by
          rcases hside with h1 | h1
          · exact List.mem_append_left _ h1
          · exact List.mem_append_right _ (List.mem_cons_of_mem _ h1)
        have hlook : List.lookup kv.1 (pre ++ (k, y) :: post) = some kv.2 :=
          lookup_eq_of_mem_nodup _ (kv.1, kv.2) (by rw [hkeys]; exact hnd) hmem2
        rw [hlook]
        exact canonEq_deepDiffF_nil _ kv.2 kv.2
          (jsonSize_le_of_memF _ kv hkv)
          (wfKeysFields_mem _ kv hwf hkv)
          (wfKeysFields_mem _ kv hwf hkv)
          rfl
      have hlookk : List.lookup k (pre ++ (k, y) :: post) = some y :=
        lookup_eq_of_mem_nodup _ (k, y) (by rw [hkeys]; exact hnd)
          (List.mem_append_right _ (List.mem_cons_self _ _))
      have hmid : (match List.lookup k (pre ++ (k, y) :: post) with
          | some w => deepDiffF (jsonSizeFields (pre ++ (k, x) :: post)) x w
          | none => ["removed: " ++ k]) = ["value changed"] := by
        rw [hlookk]
        have hxk : (k, x) ∈ pre ++ (k, x) :: post :=
          List.mem_append_right _ (List.mem_cons_self _ _)
        have hsz : 1 ≤ jsonSizeFields (pre ++ (k, x) :: post) := by
          have h1 : jsonSize x ≤ jsonSizeFields (pre ++ (k, x) :: post) :=
            jsonSize_le_of_memF _ (k, x) hxk
          have h2 := jsonSize_pos x
          omega
        obtain ⟨S, hSeq⟩ : ∃ S, jsonSizeFields (pre ++ (k, x) :: post) = S + 1 :=
          ⟨jsonSizeFields (pre ++ (k, x) :: post) - 1, by omega⟩
        simp only []
        rw [hSeq, deepDiffF_scalar_left S x y hx, if_neg (by rw [hne]; exact Bool.false_ne_true)]
      have hextra : extraKeys (pre ++ (k, x) :: post) (pre ++ (k, y) :: post) = [] := by
        rw [extraKeys, List.filterMap_eq_nil_iff]
        intro kv hkv
        have hmemk : kv.1 ∈ (pre ++ (k, x) :: post).map Prod.fst := by
          rw [← hkeys]
          exact List.mem_map.mpr ⟨kv, hkv, rfl⟩
        rw [if_pos (lookup_isSome_of_mem_keys _ kv.1 hmemk)]
      rw [List.foldr_append]
      rw [show ((k, x) :: post).foldr (fun kv acc =>
          (match List.lookup kv.1 (pre ++ (k, y) :: post) with
            | some w => deepDiffF (jsonSizeFields (pre ++ (k, x) :: post)) kv.2 w
            | none => ["removed: " ++ kv.1]) ++ acc) []
        = (match List.lookup k (pre ++ (k, y) :: post) with
            | some w => deepDiffF (jsonSizeFields (pre ++ (k, x) :: post)) x w
            | none => ["removed: " ++ k])
          ++ post.foldr (fun kv acc =>
            (match List.lookup kv.1 (pre ++ (k, y) :: post) with
              | some w => deepDiffF (jsonSizeFields (pre ++ (k, x) :: post)) kv.2 w
              | none => ["removed: " ++ kv.1]) ++ acc) [] from rfl]
      rw [hmid]
      rw [foldr_app_of_nil _ _ post
        (fun kv hkv => harmnil kv
          (List.mem_append_right _ (List.mem_cons_of_mem _ hkv)) (Or.inr hkv))]
      rw [foldr_app_of_nil _ _ pre
        (fun kv hkv => harmnil kv (List.mem_append_left _ hkv) (Or.inl hkv))]
      rw [hextra]
      rfl
    refine ⟨hd, ?_⟩
    rw [diffClassify, hd]
    rfl

/-- C8 witness: two objects equal modulo the ordering of a nested list are an
exact match with no differences; two objects differing in the one scalar field
`b` report exactly one difference. -/
theorem c8_structural_diff_strategy_witness :
    (deepDiff (.obj [("a", .num "1"), ("b", .arr [.str "x", .str "y"])])
        (.obj [("b", .arr [.str "y", .str "x"]), ("a", .num "1")]) = []
      ∧ diffClassify (.obj [("a", .num "1"), ("b", .arr [.str "x", .str "y"])])
        (.obj [("b", .arr [.str "y", .str "x"]), ("a", .num "1")]) = "Exact Match")
    ∧ (deepDiff (.obj [("a", .str "1"), ("b", .str "10")])
        (.obj [("a", .str "1"), ("b", .str "12")]) = ["value changed"]
      ∧ diffClassify (.obj [("a", .str "1"), ("b", .str "10")])
        (.obj [("a", .str "1"), ("b", .str "12")]) = "Has Differences") :=
  ⟨c8_structural_diff_strategy.1
      (.obj [("a", .num "1"), ("b", .arr [.str "x", .str "y"])])
      (.obj [("b", .arr [.str "y", .str "x"]), ("a", .num "1")])
      (by decide) (by decide) (by decide),
   c8_structural_diff_strategy.2
      [("a", .str "1")] [] "b" (.str "10") (.str "12")
      (by decide) rfl rfl (by decide)⟩

/-! ### The fence-wrapping equivalence (C1)

Structural lemmas about the parser (every parse leaves a suffix; a parsed
object starts at a brace and ends at one), the trimming and stripping
primitives, and Python's `split`, leading to the amended wrap equivalence:
it holds whenever the bare fence token does not occur inside the JSON text
itself, and the counterexample shows why that proviso is needed. -/

theorem skipWs_suffix (cs : List Char) : skipWs cs <:+ cs := List.dropWhile_suffix isJws

theorem takeDigitsL_suffix : ∀ cs : List Char, (takeDigitsL cs).2 <:+ cs
  | [] => List.suffix_rfl
  | c :: rest => by
    rw [takeDigitsL]
    by_cases h : c.isDigit = true
    · rw [if_pos h]
      exact (takeDigitsL_suffix rest).trans (List.suffix_cons c rest)
    · rw [if_neg h]

theorem parseFracPart_suffix (cs : List Char) (fr r : List Char)
    (h : parseFracPart cs = some (fr, r)) : r <:+ cs := by
  unfold parseFracPart at h
  split at h
  · rename_i rest
    split at h
    · cases h
    · rename_i ds r2 hne heq
      simp only [Option.some.injEq, Prod.mk.injEq] at h
      obtain ⟨_, h2⟩ := h
      subst h2
      have := takeDigitsL_suffix rest
      rw [heq] at this
      exact this.trans (List.suffix_cons '.' rest)
  · simp only [Option.some.injEq, Prod.mk.injEq] at h
    obtain ⟨_, h2⟩ := h
    subst h2
    exact List.suffix_rfl

theorem parseExpPart_suffix (cs : List Char) (ex r : List Char)
    (h : parseExpPart cs = some (ex, r)) : r <:+ cs := by
  unfold parseExpPart at h
  split at h
  · rename_i c r0
    split at h
    · split at h
      · rename_i r2
        dsimp only at h
        split at h
        · cases h
        · rename_i ds r3 hne heqd
          simp only [Option.some.injEq, Prod.mk.injEq] at h
          obtain ⟨_, h2⟩ := h
          subst h2
          have htd := takeDigitsL_suffix r2
          rw [heqd] at htd
          exact htd.trans ⟨[c, '+'], rfl⟩
      · rename_i r2
        dsimp only at h
        split at h
        · cases h
        · rename_i ds r3 hne heqd
          simp only [Option.some.injEq, Prod.mk.injEq] at h
          obtain ⟨_, h2⟩ := h
          subst h2
          have htd := takeDigitsL_suffix r2
          rw [heqd] at htd
          exact htd.trans ⟨[c, '-'], rfl⟩
      · dsimp only at h
        split at h
        · cases h
        · rename_i ds r3 hne heqd
          simp only [Option.some.injEq, Prod.mk.injEq] at h
          obtain ⟨_, h2⟩ := h
          subst h2
          have htd := takeDigitsL_suffix r0
          rw [heqd] at htd
          exact htd.trans (List.suffix_cons c r0)
    · simp only [Option.some.injEq, Prod.mk.injEq] at h
      obtain ⟨_, h2⟩ := h
      subst h2
      exact List.suffix_rfl
  · simp only [Option.some.injEq, Prod.mk.injEq] at h
    obtain ⟨_, h2⟩ := h
    subst h2
    exact List.suffix_rfl

theorem parseNumber_suffix (cs : List Char) (lex : String) (r : List Char)
    (h : parseNumber cs = some (lex, r)) : r <:+ cs := by
  unfold parseNumber at h
  split at h
  · rename_i r0
    dsimp only at h
    split at h
    · cases h
    · rename_i c rest
      split at h
      · split at h
        · cases h
        · rename_i fr cs3 heqf
          split at h
          · cases h
          · rename_i ex cs4 heqe
            simp only [Option.some.injEq, Prod.mk.injEq] at h
            obtain ⟨_, h2⟩ := h
            subst h2
            have hip : (if c = '0' then (([c] : List Char), rest)
                else (c :: (takeDigitsL rest).1, (takeDigitsL rest).2)).2 <:+ rest := by
              split
              · exact List.suffix_rfl
              · exact takeDigitsL_suffix rest
            have h3 := parseFracPart_suffix _ fr cs3 heqf
            have h4 := parseExpPart_suffix cs3 ex cs4 heqe
            exact ((h4.trans h3).trans hip).trans ⟨['-', c], rfl⟩
      · cases h
  · dsimp only at h
    split at h
    · cases h
    · rename_i c rest hmiss
      split at h
      · split at h
        · cases h
        · rename_i fr cs3 heqf
          split at h
          · cases h
          · rename_i ex cs4 heqe
            simp only [Option.some.injEq, Prod.mk.injEq] at h
            obtain ⟨_, h2⟩ := h
            subst h2
            have hip : (if c = '0' then (([c] : List Char), rest)
                else (c :: (takeDigitsL rest).1, (takeDigitsL rest).2)).2 <:+ rest := by
              split
              · exact List.suffix_rfl
              · exact takeDigitsL_suffix rest
            have h3 := parseFracPart_suffix _ fr cs3 heqf
            have h4 := parseExpPart_suffix cs3 ex cs4 heqe
            exact (((h4.trans h3).trans hip).trans (List.suffix_cons c rest))
      · cases h

theorem parseHex4At_suffix (l : List Char) (n : Nat) (r : List Char)
    (h : parseHex4At l = some (n, r)) : r <:+ l := by
  unfold parseHex4At at h
  split at h
  · rename_i a b c d rest
    split at h
    · simp only [Option.some.injEq, Prod.mk.injEq] at h
      obtain ⟨_, h2⟩ := h
      subst h2
      exact ⟨[a, b, c, d], rfl⟩
    · cases h
  · cases h

theorem parseStrBodyF_suffix : ∀ (fuel : Nat) (acc cs : List Char) (s : String) (r : List Char),
    parseStrBodyF fuel acc cs = some (s, r) → r <:+ cs
  | 0, acc, cs, s, r => by intro h; cases h
  | fuel + 1, acc, cs, s, r => by
    intro h
    unfold parseStrBodyF at h
    split at h
    · cases h
    · rename_i rest
      simp only [Option.some.injEq, Prod.mk.injEq] at h
      obtain ⟨_, h2⟩ := h
      subst h2
      exact List.suffix_cons '"' rest
    · rename_i rest
      split at h
      · cases h
      · rename_i rest2
        split at h
        · cases h
        · rename_i n rest3 heq3
          have h3 : rest3 <:+ rest2 := parseHex4At_suffix rest2 n rest3 heq3
          split at h
          · exact ((parseStrBodyF_suffix fuel _ rest3 s r h).trans h3).trans ⟨['\\', 'u'], rfl⟩
          · split at h
            · split at h
              · rename_i rest4
                split at h
                · cases h
                · rename_i m rest5 heq5
                  have h5 : rest5 <:+ rest4 := parseHex4At_suffix rest4 m rest5 heq5
                  split at h
                  · exact ((((parseStrBodyF_suffix fuel _ rest5 s r h).trans h5).trans
                      ⟨['\\', 'u'], rfl⟩).trans h3).trans ⟨['\\', 'u'], rfl⟩
                  · cases h
              · cases h
            · cases h
      · rename_i e rest2 hmiss
        split at h
        · rename_i ch hch
          exact (parseStrBodyF_suffix fuel _ rest2 s r h).trans ⟨['\\', e], rfl⟩
        · cases h
    · rename_i c rest hm1 hm2
      split at h
      · cases h
      · exact (parseStrBodyF_suffix fuel _ rest s r h).trans (List.suffix_cons c rest)

theorem parseStrBody_suffix (acc cs : List Char) (s : String) (r : List Char)
    (h : parseStrBody acc cs = some (s, r)) : r <:+ cs :=
  parseStrBodyF_suffix _ acc cs s r h

theorem suffix_of_eq_cons {c : Char} {t X : List Char} (h : X = c :: t) : t <:+ X :=
  ⟨[c], h.symm⟩

mutual

theorem parseValue_suffix : ∀ (f : Nat) (cs : List Char) (v : Json) (r : List Char),
    parseValue f cs = some (v, r) → r <:+ cs
  | 0, cs, v, r => fun h => Option.noConfusion h
  | f + 1, cs, v, r => by
    intro h
    unfold parseValue at h
    split at h
    · rename_i rest
      split at h
      · rename_i r1 heq1
        simp only [Option.some.injEq, Prod.mk.injEq] at h
        obtain ⟨_, h2⟩ := h
        subst h2
        exact (suffix_of_eq_cons heq1).trans
          ((skipWs_suffix rest).trans (List.suffix_cons '{' rest))
      · split at h
        · rename_i ms r2 heqm
          simp only [Option.some.injEq, Prod.mk.injEq] at h
          obtain ⟨_, h2⟩ := h
          subst h2
          exact (parseMembers_suffix f _ _ ms r2 heqm).trans
            ((skipWs_suffix rest).trans (List.suffix_cons '{' rest))
        · cases h
    · rename_i rest
      split at h
      · rename_i r1 heq1
        simp only [Option.some.injEq, Prod.mk.injEq] at h
        obtain ⟨_, h2⟩ := h
        subst h2
        exact (suffix_of_eq_cons heq1).trans
          ((skipWs_suffix rest).trans (List.suffix_cons '[' rest))
      · split at h
        · rename_i vs r2 heqm
          simp only [Option.some.injEq, Prod.mk.injEq] at h
          obtain ⟨_, h2⟩ := h
          subst h2
          exact (parseItems_suffix f _ _ vs r2 heqm).trans
            ((skipWs_suffix rest).trans (List.suffix_cons '[' rest))
        · cases h
    · rename_i rest
      split at h
      · rename_i s0 r1 heq1
        simp only [Option.some.injEq, Prod.mk.injEq] at h
        obtain ⟨_, h2⟩ := h
        subst h2
        exact (parseStrBody_suffix [] rest s0 r1 heq1).trans (List.suffix_cons '"' rest)
      · cases h
    · rename_i r1
      simp only [Option.some.injEq, Prod.mk.injEq] at h
      obtain ⟨_, h2⟩ := h
      subst h2
      exact ⟨['t', 'r', 'u', 'e'], rfl⟩
    · rename_i r1
      simp only [Option.some.injEq, Prod.mk.injEq] at h
      obtain ⟨_, h2⟩ := h
      subst h2
      exact ⟨['f', 'a', 'l', 's', 'e'], rfl⟩
    · rename_i r1
      simp only [Option.some.injEq, Prod.mk.injEq] at h
      obtain ⟨_, h2⟩ := h
      subst h2
      exact ⟨['n', 'u', 'l', 'l'], rfl⟩
    · split at h
      · split at h
        · rename_i lex r2 heqn
          simp only [Option.some.injEq, Prod.mk.injEq] at h
          obtain ⟨_, h2⟩ := h
          subst h2
          exact parseNumber_suffix _ lex _ heqn
        · cases h
      · cases h
    · cases h

theorem parseMembers_suffix : ∀ (f : Nat) (cs : List Char) (acc : List (String × Json))
    (ms : List (String × Json)) (r : List Char),
    parseMembers f cs acc = some (ms, r) → r <:+ cs
  | 0, cs, acc, ms, r => fun h => Option.noConfusion h
  | f + 1, cs, acc, ms, r => by
    intro h
    unfold parseMembers at h
    split at h
    · rename_i rest
      split at h
      · cases h
      · rename_i k r1 heq1
        have a9 : r1 <:+ rest := parseStrBody_suffix [] rest k r1 heq1
        have a10 := List.suffix_cons '"' rest
        split at h
        · rename_i r2 heq2
          have a7 : r2 <:+ skipWs r1 := suffix_of_eq_cons heq2
          have a8 := skipWs_suffix r1
          split at h
          · cases h
          · rename_i v0 r3 heq3
            have a5 : r3 <:+ skipWs r2 := parseValue_suffix f _ v0 r3 heq3
            have a6 := skipWs_suffix r2
            split at h
            · rename_i r4 heq4
              have a1 : r <:+ skipWs r4 := parseMembers_suffix f _ _ ms r h
              have a2 := skipWs_suffix r4
              have a3 : r4 <:+ skipWs r3 := suffix_of_eq_cons heq4
              have a4 := skipWs_suffix r3
              exact a1.trans (a2.trans (a3.trans (a4.trans (a5.trans (a6.trans
                (a7.trans (a8.trans (a9.trans a10))))))))
            · rename_i r4 heq4
              simp only [Option.some.injEq, Prod.mk.injEq] at h
              obtain ⟨_, h2⟩ := h
              subst h2
              have a3 : r4 <:+ skipWs r3 := suffix_of_eq_cons heq4
              have a4 := skipWs_suffix r3
              exact a3.trans (a4.trans (a5.trans (a6.trans
                (a7.trans (a8.trans (a9.trans a10))))))
            · cases h
        · cases h
    · cases h

theorem parseItems_suffix : ∀ (f : Nat) (cs : List Char) (acc : List Json)
    (vs : List Json) (r : List Char),
    parseItems f cs acc = some (vs, r) → r <:+ cs
  | 0, cs, acc, vs, r => fun h => Option.noConfusion h
  | f + 1, cs, acc, vs, r => by
    intro h
    unfold parseItems at h
    split at h
    · cases h
    · rename_i v0 r1 heq1
      split at h
      · rename_i r2 heq2
        exact ((((parseItems_suffix f _ _ vs r h).trans (skipWs_suffix r2)).trans
          (suffix_of_eq_cons heq2)).trans (skipWs_suffix r1)).trans
          (parseValue_suffix f cs v0 r1 heq1)
      · rename_i r2 heq2
        simp only [Option.some.injEq, Prod.mk.injEq] at h
        obtain ⟨_, h2⟩ := h
        subst h2
        exact ((suffix_of_eq_cons heq2).trans (skipWs_suffix r1)).trans
          (parseValue_suffix f cs v0 r1 heq1)
      · cases h

end

theorem parseMembers_endBrace : ∀ (f : Nat) (cs : List Char) (acc ms : List (String × Json))
    (r : List Char), parseMembers f cs acc = some (ms, r) → ('}' :: r) <:+ cs
  | 0, cs, acc, ms, r => fun h => Option.noConfusion h
  | f + 1, cs, acc, ms, r => by
    intro h
    unfold parseMembers at h
    split at h
    · rename_i rest
      split at h
      · cases h
      · rename_i k r1 heq1
        have a9 : r1 <:+ rest := parseStrBody_suffix [] rest k r1 heq1
        have a10 := List.suffix_cons '"' rest
        split at h
        · rename_i r2 heq2
          have a7 : r2 <:+ skipWs r1 := suffix_of_eq_cons heq2
          have a8 := skipWs_suffix r1
          split at h
          · cases h
          · rename_i v0 r3 heq3
            have a5 : r3 <:+ skipWs r2 := parseValue_suffix f _ v0 r3 heq3
            have a6 := skipWs_suffix r2
            split at h
            · rename_i r4 heq4
              have a1 : ('}' :: r) <:+ skipWs r4 := parseMembers_endBrace f _ _ ms r h
              have a2 := skipWs_suffix r4
              have a3 : r4 <:+ skipWs r3 := suffix_of_eq_cons heq4
              have a4 := skipWs_suffix r3
              exact a1.trans (a2.trans (a3.trans (a4.trans (a5.trans (a6.trans
                (a7.trans (a8.trans (a9.trans a10))))))))
            · rename_i r4 heq4
              simp only [Option.some.injEq, Prod.mk.injEq] at h
              obtain ⟨_, h2⟩ := h
              subst h2
              have a3 : ('}' :: r4) <:+ r3 := by
                have := skipWs_suffix r3
                rw [heq4] at this
                exact this
              exact a3.trans (a5.trans (a6.trans
                (a7.trans (a8.trans (a9.trans a10)))))
            · cases h
        · cases h
    · cases h

theorem parseValue_obj_shape (f : Nat) (cs : List Char) (o : List (String × Json)) (r : List Char)
    (h : parseValue f cs = some (.obj o, r)) :
    (∃ rest, cs = '{' :: rest) ∧ ('}' :: r) <:+ cs := by
  match f with
  | 0 => exact Option.noConfusion h
  | f + 1 =>
    unfold parseValue at h
    split at h
    · rename_i rest
      refine ⟨⟨rest, rfl⟩, ?_⟩
      split at h
      · rename_i r1 heq1
        simp only [Option.some.injEq, Prod.mk.injEq] at h
        obtain ⟨_, h2⟩ := h
        subst h2
        have : ('}' :: r1) <:+ rest := by
          have hs := skipWs_suffix rest
          rw [heq1] at hs
          exact hs
        exact this.trans (List.suffix_cons '{' rest)
      · split at h
        · rename_i ms r2 heqm
          simp only [Option.some.injEq, Prod.mk.injEq] at h
          obtain ⟨_, h2⟩ := h
          subst h2
          exact ((parseMembers_endBrace f _ _ ms _ heqm).trans
            (skipWs_suffix rest)).trans (List.suffix_cons '{' rest)
        · cases h
    · rename_i rest
      split at h
      · simp at h
      · split at h
        · simp at h
        · cases h
    · rename_i rest
      split at h
      · simp at h
      · cases h
    · simp at h
    · simp at h
    · simp at h
    · split at h
      · split at h
        · simp at h
        · cases h
      · cases h
    · cases h

theorem parseValue_nil (f : Nat) : parseValue f [] = none := by
  cases f with
  | zero => rfl
  | succ f => rfl

theorem parseValue_tick (f : Nat) (rest : List Char) : parseValue f ('`' :: rest) = none := by
  cases f with
  | zero => rfl
  | succ f => rfl

theorem parseValue_jchar (f : Nat) (rest : List Char) : parseValue f ('j' :: rest) = none := by
  cases f with
  | zero => rfl
  | succ f => rfl

theorem dropWhile_append_all (p : Char → Bool) :
    ∀ (l1 l2 : List Char), l1.all p = true → (l1 ++ l2).dropWhile p = l2.dropWhile p
  | [], l2, _ => rfl
  | c :: l1, l2, h => by
    simp only [List.all_cons, Bool.and_eq_true] at h
    rw [List.cons_append, List.dropWhile_cons_of_pos h.1]
    exact dropWhile_append_all p l1 l2 h.2

theorem all_reverse_iff (p : Char → Bool) (l : List Char) :
    l.reverse.all p = l.all p := by
  simp [List.all_eq_true]

theorem pyRStrip_append_all (p : Char → Bool) (l w : List Char) (h : w.all p = true) :
    pyRStrip p (l ++ w) = pyRStrip p l := by
  rw [pyRStrip, pyRStrip, List.reverse_append,
    dropWhile_append_all p w.reverse l.reverse (by rw [all_reverse_iff]; exact h)]

theorem pyRStrip_last_false (p : Char → Bool) (l : List Char) (c : Char) (h : p c = false) :
    pyRStrip p (l ++ [c]) = l ++ [c] := by
  rw [pyRStrip, List.reverse_append]
  rw [show ([c].reverse : List Char) = [c] from rfl, List.singleton_append,
    List.dropWhile_cons_of_neg (by rw [h]; exact Bool.false_ne_true)]
  rw [List.reverse_cons, List.reverse_reverse]

theorem pyLStrip_cons_false (p : Char → Bool) (c : Char) (l : List Char) (h : p c = false) :
    pyLStrip p (c :: l) = c :: l := by
  rw [pyLStrip, List.dropWhile_cons_of_neg (by rw [h]; exact Bool.false_ne_true)]

theorem rstrip_decomp (p : Char → Bool) (l : List Char) :
    ∃ w, l = pyRStrip p l ++ w ∧ w.all p = true := by
  refine ⟨(l.reverse.takeWhile p).reverse, ?_, ?_⟩
  · rw [pyRStrip]
    rw [← List.reverse_append, List.takeWhile_append_dropWhile]
    · rw [List.reverse_reverse]
  · rw [all_reverse_iff]
    rw [List.all_eq_true]
    intro a ha
    exact List.mem_takeWhile_imp ha

theorem lstrip_decomp (p : Char → Bool) (l : List Char) :
    ∃ w, l = w ++ pyLStrip p l ∧ w.all p = true := by
  refine ⟨l.takeWhile p, ?_, ?_⟩
  · rw [pyLStrip, List.takeWhile_append_dropWhile]
  · rw [List.all_eq_true]
    intro a ha
    exact List.mem_takeWhile_imp ha

theorem isPws_of_isJws (c : Char) (h : isJws c = true) : isPws c = true := by
  rw [isPws, h]
  rfl

theorem isJws_tick_false : isJws (Char.ofNat 96) = false := rfl

theorem isPrefixOf_cons_head_false (c d : Char) (cl u : List Char) (h : c ≠ d) :
    (c :: cl).isPrefixOf (d :: u) = false := by
  simp [List.isPrefixOf, h]

theorem isPrefixOf_nil_right (c : Char) (cl : List Char) :
    (c :: cl).isPrefixOf [] = false := rfl

theorem pySplitGo_no_occ (sep : List Char) :
    ∀ (fuel : Nat) (l acc : List Char), l.length ≤ fuel → ¬ (sep <:+: l) →
      pySplitGo sep fuel l acc = [acc.reverse ++ l] := by
  intro fuel
  induction fuel with
  | zero =>
    intro l acc hlen _
    have : l = [] := List.eq_nil_of_length_eq_zero (Nat.le_zero.mp hlen)
    subst this
    simp [pySplitGo]
  | succ f ih =>
    intro l acc hlen hocc
    cases l with
    | nil => simp [pySplitGo]
    | cons c rest =>
      have hpre : sep.isPrefixOf (c :: rest) = false := by
        by_cases hp : sep.isPrefixOf (c :: rest) = true
        · exact absurd (List.isPrefixOf_iff_prefix.mp hp).isInfix hocc
        · exact Bool.not_eq_true _ |>.mp hp
      rw [pySplitGo, if_neg (by rw [hpre]; exact Bool.false_ne_true)]
      rw [ih rest (c :: acc) (by simp only [List.length_cons] at hlen; omega)
        (fun hi => hocc (List.infix_cons hi))]
      simp

theorem pySplitL_cons_sep (sep u : List Char) (hsep : sep ≠ []) :
    ∃ f, pySplitL sep (sep ++ u) = [] :: pySplitGo sep f u [] ∧ u.length ≤ f := by
  obtain ⟨s0, st, rfl⟩ : ∃ s0 st, sep = s0 :: st := by
    cases sep with
    | nil => exact absurd rfl hsep
    | cons s0 st => exact ⟨s0, st, rfl⟩
  refine ⟨(s0 :: st).length + u.length - 1, ?_, by simp⟩
  rw [pySplitL]
  have hlen : ((s0 :: st) ++ u).length = (st ++ u).length + 1 := by simp
  rw [hlen]
  rw [show (s0 :: st) ++ u = s0 :: (st ++ u) from rfl]
  rw [pySplitGo, if_pos (List.isPrefixOf_iff_prefix.mpr
    (by rw [show s0 :: (st ++ u) = (s0 :: st) ++ u from rfl]; exact List.prefix_append _ u))]
  have hdrop : (st ++ u).drop ((s0 :: st).length - 1) = u := by
    simp only [List.length_cons, Nat.add_sub_cancel]
    exact List.drop_left st u
  rw [hdrop]
  have hf : (st ++ u).length = (s0 :: st).length + u.length - 1 := by simp
  rw [hf]
  simp

theorem pySplitGo_tick_end : ∀ (u : List Char) (fuel : Nat) (acc : List Char),
    u.length + 3 ≤ fuel → ¬ (lTick <:+: u) → u.getLast? ≠ some '`' →
    pySplitGo lTick fuel (u ++ lTick) acc = [acc.reverse ++ u, []]
  | [], fuel, acc, hf, _, _ => by
    obtain ⟨f, rfl⟩ : ∃ f, fuel = f + 1 := ⟨fuel - 1, by omega⟩
    rw [show ([] : List Char) ++ lTick = '`' :: ['`', '`'] from rfl]
    rw [pySplitGo, if_pos (by decide)]
    rw [show (['`', '`'] : List Char).drop (lTick.length - 1) = [] from rfl]
    rw [show ∀ g, pySplitGo lTick g [] [] = [[]] from fun g => by cases g <;> rfl]
    simp
  | c :: u', fuel, acc, hf, hocc, hlast => by
    obtain ⟨f, rfl⟩ : ∃ f, fuel = f + 1 := ⟨fuel - 1, by omega⟩
    have hocc' : ¬ (lTick <:+: u') := fun hi => hocc (List.infix_cons hi)
    have hlast' : u'.getLast? ≠ some '`' := by
      cases u' with
      | nil => simp
      | cons d u'' =>
        intro h
        exact hlast (by rw [List.getLast?_cons_cons]; exact h)
    have hpre : lTick.isPrefixOf (c :: (u' ++ lTick)) = false := by
      cases u' with
      | nil =>
        have hc : c ≠ '`' := fun h => hlast (by rw [h]; rfl)
        exact isPrefixOf_cons_head_false '`' c _ _ (fun h => hc h.symm)
      | cons d u'' =>
        cases u'' with
        | nil =>
          have hd : d ≠ '`' := fun h => hlast (by rw [show [c, d].getLast? = some d from rfl, h])
          by_cases hc : c = '`'
          · subst hc
            simp [lTick, List.isPrefixOf]
            intro h
            exact absurd h.symm hd
          · exact isPrefixOf_cons_head_false '`' c _ _ (fun h => hc h.symm)
        | cons e u''' =>
          by_cases hp : lTick.isPrefixOf (c :: ((d :: e :: u''') ++ lTick)) = true
          · exfalso
            have hpre2 := List.isPrefixOf_iff_prefix.mp hp
            rw [show lTick = '`' :: '`' :: '`' :: ([] : List Char) from rfl] at hpre2
            obtain ⟨hc, hpre3⟩ := List.cons_prefix_cons.mp hpre2
            obtain ⟨hd, hpre4⟩ := List.cons_prefix_cons.mp hpre3
            obtain ⟨he, _⟩ := List.cons_prefix_cons.mp hpre4
            subst hc; subst hd; subst he
            exact hocc ⟨[], u''', rfl⟩
          · exact Bool.not_eq_true _ |>.mp hp
    rw [show (c :: u') ++ lTick = c :: (u' ++ lTick) from rfl]
    rw [pySplitGo, if_neg (by rw [hpre]; exact Bool.false_ne_true)]
    rw [pySplitGo_tick_end u' f (c :: acc)
      (by simp only [List.length_cons] at hf; omega) hocc' hlast']
    simp

theorem pySplitL_json_wrap (u : List Char) (hocc : ¬ (lJson <:+: u)) :
    pySplitL lJson (lJson ++ u) = [[], u] := by
  obtain ⟨f, heq, hf⟩ := pySplitL_cons_sep lJson u (by decide)
  rw [heq, pySplitGo_no_occ lJson f u [] hf hocc]
  rfl

theorem pySplitL_tick_wrap (l : List Char) (hocc : ¬ (lTick <:+: l))
    (hlast : l.getLast? ≠ some '`') :
    pySplitL lTick (lTick ++ (l ++ lTick)) = [[], l, []] := by
  obtain ⟨f, heq, hf⟩ := pySplitL_cons_sep lTick (l ++ lTick) (by decide)
  rw [heq, pySplitGo_tick_end l f []
    (by simp only [List.length_append] at hf; rw [show lTick.length = 3 from rfl] at hf; omega)
    hocc hlast]
  rfl

theorem cross_json (l : List Char) (hocc : ¬ (lTick <:+: l)) : ¬ (lJson <:+: (l ++ lTick)) := by
  intro hi
  obtain ⟨s1, s2, heq⟩ := hi
  apply hocc
  have hlen : s1.length + 7 + s2.length = l.length + 3 := by
    have h := congrArg List.length heq
    simp only [List.length_append, show lJson.length = 7 from rfl,
      show lTick.length = 3 from rfl] at h
    omega
  have heq' : s1 ++ (lJson ++ s2) = l ++ lTick := by rw [← heq]; simp
  have h0 : (l ++ lTick).drop s1.length = lJson ++ s2 := by
    rw [← heq']
    exact List.drop_left s1 _
  have h1 : (l ++ lTick).drop s1.length = l.drop s1.length ++ lTick := by
    rw [List.drop_append_eq_append_drop]
    have hz : s1.length - l.length = 0 := by omega
    rw [hz]
    rfl
  have hX : lJson ++ s2 = l.drop s1.length ++ lTick := h0.symm.trans h1
  have htake : (lJson ++ s2).take 3 = lTick := by
    rw [show lJson = lTick ++ (['j', 's', 'o', 'n'] : List Char) from rfl, List.append_assoc,
      show (3 : Nat) = lTick.length from rfl, List.take_left]
  have htake2 : (l.drop s1.length ++ lTick).take 3 = (l.drop s1.length).take 3 := by
    rw [List.take_append_eq_append_take]
    have hz : 3 - (l.drop s1.length).length = 0 := by
      simp only [List.length_drop]
      omega
    rw [hz]
    simp
  have hmid : (l.drop s1.length).take 3 = lTick := by rw [← htake2, ← hX, htake]
  refine ⟨l.take s1.length, (l.drop s1.length).drop 3, ?_⟩
  rw [← hmid, List.append_assoc, List.take_append_drop, List.take_append_drop]

theorem jsonLoadsL_parse (cs : List Char) (v : Json) (h : jsonLoadsL cs = some v) :
    parseValue ((trimJ cs).length + 1) (trimJ cs) = some (v, []) := by
  unfold jsonLoadsL at h
  dsimp only at h
  split at h
  · rename_i v' heq
    simp only [Option.some.injEq] at h
    subst h
    exact heq
  · cases h

theorem jsonLoadsL_intro (X m0 : List Char) (v : Json) (ht : trimJ X = m0)
    (hp : parseValue (m0.length + 1) m0 = some (v, [])) : jsonLoadsL X = some v := by
  show (match parseValue ((trimJ X).length + 1) (trimJ X) with
    | some (w, []) => some w
    | _ => none) = some v
  rw [ht, hp]

theorem trimJ_decomp (cs : List Char) :
    ∃ w1 w2, cs = w1 ++ (trimJ cs ++ w2) ∧ w1.all isJws = true ∧ w2.all isJws = true := by
  obtain ⟨w1, h1, a1⟩ := lstrip_decomp isJws cs
  obtain ⟨w2, h2, a2⟩ := rstrip_decomp isJws (pyLStrip isJws cs)
  refine ⟨w1, w2, ?_, a1, a2⟩
  have ht : trimJ cs = pyRStrip isJws (pyLStrip isJws cs) := rfl
  rw [ht, ← h2, ← h1]

theorem all_isPws_of_all_isJws (w : List Char) (h : w.all isJws = true) : w.all isPws = true := by
  rw [List.all_eq_true] at h ⊢
  exact fun c hc => isPws_of_isJws c (h c hc)

theorem isTick_false_of_isJws (c : Char) (h : isJws c = true) : isTick c = false := by
  by_cases hc : c = '`'
  · rw [hc] at h
    exact absurd h (by decide)
  · rw [isTick]
    simpa using hc

theorem trimJ_clean (m w2 mi C : List Char) (hh : m = '{' :: mi) (hl : m = C ++ ['}'])
    (hw2 : w2.all isJws = true) : trimJ (m ++ w2) = m := by
  have ht : trimJ (m ++ w2) = pyRStrip isJws (pyLStrip isJws (m ++ w2)) := rfl
  have h1 : pyLStrip isJws (m ++ w2) = m ++ w2 := by
    rw [hh, List.cons_append]
    exact pyLStrip_cons_false isJws '{' _ rfl
  rw [ht, h1, pyRStrip_append_all isJws m w2 hw2, hl,
    pyRStrip_last_false isJws C '}' rfl]

theorem trimJ_clean_self (m mi C : List Char) (hh : m = '{' :: mi) (hl : m = C ++ ['}']) :
    trimJ m = m := by
  have := trimJ_clean m [] mi C hh hl rfl
  rwa [List.append_nil] at this

theorem lastTick_shape (m w2 C : List Char) (hl : m = C ++ ['}'])
    (hw2 : w2.all isJws = true) :
    ∃ X c, m ++ w2 = X ++ [c] ∧ isTick c = false := by
  rcases List.eq_nil_or_concat w2 with hnil | ⟨w2', c, hcon⟩
  · subst hnil
    exact ⟨C, '}', by rw [List.append_nil, hl], rfl⟩
  · subst hcon
    refine ⟨m ++ w2', c, by simp, ?_⟩
    have hc : isJws c = true := by
      rw [List.all_eq_true] at hw2
      exact hw2 c (by simp)
    exact isTick_false_of_isJws c hc

theorem strip_pipeline_B (m w2 mi C w1 : List Char) (hh : m = '{' :: mi)
    (hl : m = C ++ ['}']) (hw2 : w2.all isJws = true) (hw1 : w1.all isJws = true) :
    pyStripBy isTick (pyStripBy isPws (w1 ++ (m ++ w2))) = m := by
  have h1 : pyLStrip isPws (w1 ++ (m ++ w2)) = m ++ w2 := by
    rw [pyLStrip, dropWhile_append_all isPws w1 _ (all_isPws_of_all_isJws w1 hw1)]
    rw [hh, List.cons_append]
    exact pyLStrip_cons_false isPws '{' _ rfl
  have h2 : pyRStrip isPws (m ++ w2) = m := by
    rw [pyRStrip_append_all isPws m w2 (all_isPws_of_all_isJws w2 hw2), hl,
      pyRStrip_last_false isPws C '}' rfl]
  have h3 : pyStripBy isPws (w1 ++ (m ++ w2)) = m := by
    rw [pyStripBy, h1, h2]
  rw [h3, pyStripBy]
  have h4 : pyLStrip isTick m = m := by
    rw [hh]
    exact pyLStrip_cons_false isTick '{' _ rfl
  rw [h4, hl, pyRStrip_last_false isTick C '}' rfl]

theorem strip_pipeline_A (m w2 mi C w1 : List Char) (hh : m = '{' :: mi)
    (hl : m = C ++ ['}']) (hw2 : w2.all isJws = true) (hw1 : w1.all isJws = true) :
    pyStripBy isTick (pyStripBy isPws ((w1 ++ (m ++ w2)) ++ lTick)) = m ++ w2 := by
  have h1 : pyLStrip isPws ((w1 ++ (m ++ w2)) ++ lTick) = (m ++ w2) ++ lTick := by
    rw [pyLStrip, List.append_assoc, dropWhile_append_all isPws w1 _
      (all_isPws_of_all_isJws w1 hw1)]
    rw [hh, List.cons_append, List.cons_append]
    exact pyLStrip_cons_false isPws '{' _ rfl
  have h2 : pyRStrip isPws ((m ++ w2) ++ lTick) = (m ++ w2) ++ lTick := by
    rw [show ((m ++ w2) ++ lTick) = ((m ++ w2) ++ ['`', '`']) ++ ['`'] from by simp [lTick]]
    rw [pyRStrip_last_false isPws _ '`' rfl]
  have h3 : pyStripBy isPws ((w1 ++ (m ++ w2)) ++ lTick) = (m ++ w2) ++ lTick := by
    rw [pyStripBy, h1, h2]
  rw [h3, pyStripBy]
  have h4 : pyLStrip isTick ((m ++ w2) ++ lTick) = (m ++ w2) ++ lTick := by
    rw [hh, List.cons_append, List.cons_append]
    exact pyLStrip_cons_false isTick '{' _ rfl
  rw [h4, pyRStrip_append_all isTick (m ++ w2) lTick rfl]
  obtain ⟨X, c, hXc, hc⟩ := lastTick_shape m w2 C hl hw2
  rw [hXc, pyRStrip_last_false isTick X c hc]

theorem if_bool_true {α : Type} (b : Bool) (h : b = true) (x y : α) :
    (if b = true then x else y) = x := by rw [h]; rfl

theorem if_bool_false {α : Type} (b : Bool) (h : b = false) (x y : α) :
    (if b = true then x else y) = y := by rw [h]; exact if_neg Bool.false_ne_true

theorem sanitize_steps (cs cs1 cs2 : List Char)
    (h1 : (if lJson.isPrefixOf cs = true then idx1 (pySplitL lJson cs) else cs) = cs1)
    (h2 : (if lTick.isPrefixOf cs1 = true then idx1 (pySplitL lTick cs1) else cs1) = cs2) :
    sanitize cs = pyStripBy isTick (pyStripBy isPws cs2) := by
  unfold sanitize
  dsimp only
  rw [h1, h2]

theorem isPrefixOf_append_self (l u : List Char) : l.isPrefixOf (l ++ u) = true :=
  List.isPrefixOf_iff_prefix.mpr (List.prefix_append l u)

theorem head_shape (tl m w2 mi w1 : List Char) (hdec : tl = w1 ++ (m ++ w2))
    (hh : m = '{' :: mi) (hw1 : w1.all isJws = true) :
    ∃ c u, tl = c :: u ∧ c ≠ '`' ∧ c ≠ 'j' := by
  cases w1 with
  | nil =>
    refine ⟨'{', mi ++ w2, ?_, by decide, by decide⟩
    rw [hdec, hh]
    rfl
  | cons c w1' =>
    have hc : isJws c = true := by
      rw [List.all_eq_true] at hw1
      exact hw1 c (List.mem_cons_self c w1')
    refine ⟨c, w1' ++ (m ++ w2), by rw [hdec]; rfl, ?_, ?_⟩
    · intro he
      rw [he] at hc
      exact absurd hc (by decide)
    · intro he
      rw [he] at hc
      exact absurd hc (by decide)

theorem tl_last (tl m w2 C w1 : List Char) (hdec : tl = w1 ++ (m ++ w2))
    (hl : m = C ++ ['}']) (hw2 : w2.all isJws = true) : tl.getLast? ≠ some '`' := by
  rcases List.eq_nil_or_concat w2 with hnil | ⟨w2', c, hcon⟩
  · subst hnil
    rw [hdec, hl, List.append_nil, ← List.append_assoc, List.getLast?_concat]
    decide
  · subst hcon
    have hc : isJws c = true := by
      rw [List.all_eq_true] at hw2
      exact hw2 c (by simp)
    rw [hdec, show w1 ++ (m ++ w2'.concat c) = (w1 ++ (m ++ w2')) ++ [c] from by simp,
      List.getLast?_concat]
    intro he
    simp only [Option.some.injEq] at he
    rw [he] at hc
    exact absurd hc (by decide)

theorem idx1_pair (a b : List Char) : idx1 [a, b] = b := rfl

theorem idx1_triple (a b c : List Char) : idx1 [a, b, c] = b := rfl

theorem lJson_isPrefixOf_tick (X : List Char) :
    lJson.isPrefixOf (lTick ++ X) = (['j', 's', 'o', 'n'] : List Char).isPrefixOf X := rfl

theorem sanitize_plain (tl m w2 mi C w1 : List Char)
    (hdec : tl = w1 ++ (m ++ w2)) (hh : m = '{' :: mi) (hl : m = C ++ ['}'])
    (hw1 : w1.all isJws = true) (hw2 : w2.all isJws = true) :
    sanitize tl = m := by
  obtain ⟨c, u, hcu, hct, hcj⟩ := head_shape tl m w2 mi w1 hdec hh hw1
  have hpre1 : lJson.isPrefixOf tl = false := by
    rw [hcu]
    exact isPrefixOf_cons_head_false '`' c _ _ (fun he => hct he.symm)
  have hpre2 : lTick.isPrefixOf tl = false := by
    rw [hcu]
    exact isPrefixOf_cons_head_false '`' c _ _ (fun he => hct he.symm)
  rw [sanitize_steps tl tl tl (by rw [if_bool_false _ hpre1]) (by rw [if_bool_false _ hpre2])]
  rw [hdec]
  exact strip_pipeline_B m w2 mi C w1 hh hl hw2 hw1

theorem sanitize_wrapA (tl m w2 mi C w1 : List Char)
    (hdec : tl = w1 ++ (m ++ w2)) (hh : m = '{' :: mi) (hl : m = C ++ ['}'])
    (hw1 : w1.all isJws = true) (hw2 : w2.all isJws = true)
    (hocc : ¬ (lTick <:+: tl)) :
    sanitize (lJson ++ (tl ++ lTick)) = m ++ w2 := by
  obtain ⟨c, u, hcu, hct, hcj⟩ := head_shape tl m w2 mi w1 hdec hh hw1
  have h1 : (if lJson.isPrefixOf (lJson ++ (tl ++ lTick)) = true
      then idx1 (pySplitL lJson (lJson ++ (tl ++ lTick))) else lJson ++ (tl ++ lTick))
      = tl ++ lTick := by
    rw [if_bool_true _ (isPrefixOf_append_self lJson _)]
    rw [pySplitL_json_wrap _ (cross_json tl hocc)]
    rfl
  have hpre2 : lTick.isPrefixOf (tl ++ lTick) = false := by
    rw [hcu, List.cons_append]
    exact isPrefixOf_cons_head_false '`' c _ _ (fun he => hct he.symm)
  rw [sanitize_steps _ (tl ++ lTick) (tl ++ lTick) h1 (by rw [if_bool_false _ hpre2])]
  rw [hdec]
  exact strip_pipeline_A m w2 mi C w1 hh hl hw2 hw1

theorem sanitize_wrapB (tl m w2 mi C w1 : List Char)
    (hdec : tl = w1 ++ (m ++ w2)) (hh : m = '{' :: mi) (hl : m = C ++ ['}'])
    (hw1 : w1.all isJws = true) (hw2 : w2.all isJws = true)
    (hocc : ¬ (lTick <:+: tl)) :
    sanitize (lTick ++ (tl ++ lTick)) = m := by
  obtain ⟨c, u, hcu, hct, hcj⟩ := head_shape tl m w2 mi w1 hdec hh hw1
  have hpre1 : lJson.isPrefixOf (lTick ++ (tl ++ lTick)) = false := by
    rw [lJson_isPrefixOf_tick, hcu, List.cons_append]
    exact isPrefixOf_cons_head_false 'j' c _ _ (fun he => hcj he.symm)
  have hlast := tl_last tl m w2 C w1 hdec hl hw2
  have h2 : (if lTick.isPrefixOf (lTick ++ (tl ++ lTick)) = true
      then idx1 (pySplitL lTick (lTick ++ (tl ++ lTick))) else lTick ++ (tl ++ lTick))
      = tl := by
    rw [if_bool_true _ (isPrefixOf_append_self lTick _)]
    rw [pySplitL_tick_wrap tl hocc hlast]
    rfl
  rw [sanitize_steps _ (lTick ++ (tl ++ lTick)) tl (by rw [if_bool_false _ hpre1]) h2]
  rw [hdec]
  exact strip_pipeline_B m w2 mi C w1 hh hl hw2 hw1

theorem validate_ok_of (s : String) (v : Json)
    (hload : jsonLoadsL (sanitize s.toList) = some v) (hs : schemaOK v = true) :
    validate_json_output s = .ok v := by
  unfold validate_json_output
  rw [hload]
  simp only []
  rw [if_bool_true _ hs]

/-- C1 (amended): for every JSON text t parsing to a schema-valid object in
which the bare fence token is not an infix, both markdown-fence wrappings are
accepted and return the same parsed object as the unwrapped text. -/
theorem c1_fence_wrap_equivalence (t : String) (o : List (String × Json))
    (hp : jsonLoads t = some (.obj o)) (hs : schemaOK (.obj o) = true)
    (hocc : ¬ (lTick <:+: t.toList)) :
    validate_json_output t = .ok (.obj o)
    ∧ validate_json_output ("```json" ++ t ++ "```") = .ok (.obj o)
    ∧ validate_json_output ("```" ++ t ++ "```") = .ok (.obj o) := by
  have hp' : jsonLoadsL t.toList = some (.obj o) := hp
  have hparse := jsonLoadsL_parse _ _ hp'
  obtain ⟨w1, w2, hdec, hw1, hw2⟩ := trimJ_decomp t.toList
  obtain ⟨⟨mi, hh⟩, hend⟩ := parseValue_obj_shape _ _ o _ hparse
  obtain ⟨C, hC⟩ := hend
  have hl : trimJ t.toList = C ++ ['}'] := hC.symm
  have htlA : ("```json" ++ t ++ "```").toList = lJson ++ (t.toList ++ lTick) := by
    show ("```json" ++ t ++ "```").data = lJson ++ (t.toList ++ lTick)
    rw [String.data_append, String.data_append, List.append_assoc]
    rfl
  have htlB : ("```" ++ t ++ "```").toList = lTick ++ (t.toList ++ lTick) := by
    show ("```" ++ t ++ "```").data = lTick ++ (t.toList ++ lTick)
    rw [String.data_append, String.data_append, List.append_assoc]
    rfl
  refine ⟨?_, ?_, ?_⟩
  · refine validate_ok_of t (.obj o) ?_ hs
    rw [sanitize_plain t.toList _ w2 mi C w1 hdec hh hl hw1 hw2]
    exact jsonLoadsL_intro _ _ _ (trimJ_clean_self _ mi C hh hl) hparse
  · refine validate_ok_of _ (.obj o) ?_ hs
    rw [htlA, sanitize_wrapA t.toList _ w2 mi C w1 hdec hh hl hw1 hw2 hocc]
    exact jsonLoadsL_intro _ _ _ (trimJ_clean _ w2 mi C hh hl hw2) hparse
  · refine validate_ok_of _ (.obj o) ?_ hs
    rw [htlB, sanitize_wrapB t.toList _ w2 mi C w1 hdec hh hl hw1 hw2 hocc]
    exact jsonLoadsL_intro _ _ _ (trimJ_clean_self _ mi C hh hl) hparse

set_option maxRecDepth 40000 in
/-- C1 counterexample: a JSON object whose text contains a bare fence token
inside a string literal parses and validates on its own, yet its bare-fence
wrapping is rejected as a malformed extraction — the split on the fence token
cuts the document at the embedded backticks. -/
theorem c1_counterexample_embedded_fence :
    jsonLoads "\x7b\"a\": \"x```y\"\x7d" = some (.obj [("a", Json.str "x```y")])
    ∧ schemaOK (.obj [("a", Json.str "x```y")]) = true
    ∧ validate_json_output ("```" ++ "\x7b\"a\": \"x```y\"\x7d" ++ "```")
        = .error .malformedExtraction := by
  refine ⟨by decide, by decide, by decide⟩

set_option maxRecDepth 40000 in
/-- C1 witness: the amended equivalence applied to a concrete order object. -/
theorem c1_fence_wrap_equivalence_witness :
    validate_json_output "\x7b\"order_id\": \"A1\"\x7d"
        = .ok (.obj [("order_id", Json.str "A1")])
    ∧ validate_json_output ("```json" ++ "\x7b\"order_id\": \"A1\"\x7d" ++ "```")
        = .ok (.obj [("order_id", Json.str "A1")])
    ∧ validate_json_output ("```" ++ "\x7b\"order_id\": \"A1\"\x7d" ++ "```")
        = .ok (.obj [("order_id", Json.str "A1")]) :=
  c1_fence_wrap_equivalence "\x7b\"order_id\": \"A1\"\x7d" [("order_id", Json.str "A1")]
    (by decide) (by decide) (by decide)
